import Mathlib

/-!
# Verification of `kedro/io/data_catalog.py`

A shallow embedding of the dataset-catalog resolution engine:
configuration values, credential resolution, factory-pattern parsing and
matching, pattern precedence sorting, the catalog registry state machine
(`__init__`, `add`, `_get_dataset`, `exists_in_catalog_config`,
`match_name_against_patterns`, `_resolve_dataset`, `load`, `save`,
`exists`, `from_config`, `shallow_copy`), and the frozen attribute view.

Python dictionaries (string-keyed, insertion ordered) are embedded as
association lists `List (String × α)`; dictionary assignment updates the
first matching key in place or appends.  Machine-level object identity
(aliasing), which two of the properties are about, is embedded separately
by a small store-passing model in which dictionary objects live at
addresses of an explicit store.
-/

set_option maxHeartbeats 1000000

namespace KedroCatalog

/-- The opening placeholder delimiter. -/
def lbrace : Char := Char.ofNat 123

/-- The closing placeholder delimiter. -/
def rbrace : Char := Char.ofNat 125

/-! ## Python dictionaries as association lists -/

/-- `k in d` for a Python dict. -/
def dictContains (m : List (String × α)) (k : String) : Bool :=
  m.any (fun p => p.1 = k)

/-- `d[k]` returning `none` instead of raising `KeyError`. -/
def dictGet (m : List (String × α)) (k : String) : Option α :=
  (m.find? (fun p => p.1 = k)).map (fun p => p.2)

/-- `d[k] = v`: update the first matching key in place, else append
(Python dicts keep insertion order and update values in place). -/
def dictSet (m : List (String × α)) (k : String) (v : α) : List (String × α) :=
  if m.any (fun p => p.1 = k) then
    m.map (fun p => if p.1 = k then (k, v) else p)
  else m ++ [(k, v)]

/-- `del d[k]` / `d.pop(k, None)`: drop every entry with key `k`. -/
def removeKey (m : List (String × α)) (k : String) : List (String × α) :=
  m.filter (fun p => ¬ p.1 = k)

@[simp] theorem dictGet_nil (k : String) : dictGet ([] : List (String × α)) k = none := rfl

theorem dictGet_cons (p : String × α) (m : List (String × α)) (k : String) :
    dictGet (p :: m) k = if p.1 = k then some p.2 else dictGet m k := by
  by_cases h : p.1 = k <;> simp [dictGet, List.find?, h]

theorem dictContains_cons (p : String × α) (m : List (String × α)) (k : String) :
    dictContains (p :: m) k = (p.1 = k || dictContains m k) := by
  simp [dictContains]

theorem dictContains_eq_isSome (m : List (String × α)) (k : String) :
    dictContains m k = (dictGet m k).isSome := by
  induction m with
  | nil => rfl
  | cons p rest ih =>
    rw [dictContains_cons, dictGet_cons]
    by_cases h : p.1 = k
    · simp [h]
    · simp only [h, decide_False, Bool.false_or, if_false]
      exact ih

theorem dictSet_of_not_contains (m : List (String × α)) (k : String) (v : α)
    (h : dictContains m k = false) : dictSet m k v = m ++ [(k, v)] := by
  have h' : m.any (fun p => p.1 = k) = false := h
  simp [dictSet, h']

theorem dictGet_append_right (m : List (String × α)) (k : String) (t : List (String × α))
    (h : dictGet m k = none) : dictGet (m ++ t) k = dictGet t k := by
  induction m with
  | nil => rfl
  | cons p rest ih =>
    rw [dictGet_cons] at h
    by_cases hp : p.1 = k
    · simp [hp] at h
    · simp only [hp, if_false] at h
      rw [List.cons_append, dictGet_cons, if_neg hp]
      exact ih h

theorem dictGet_map_set (m : List (String × α)) (k : String) (v : α)
    (h : m.any (fun p => p.1 = k) = true) :
    dictGet (m.map (fun p => if p.1 = k then (k, v) else p)) k = some v := by
  induction m with
  | nil => simp at h
  | cons p rest ih =>
    by_cases hp : p.1 = k
    · simp [dictGet_cons, hp]
    · have h2 : rest.any (fun p => p.1 = k) = true := by
        simp only [List.any_cons, hp, decide_False, Bool.false_or] at h
        exact h
      rw [List.map_cons, if_neg hp, dictGet_cons, if_neg hp]
      exact ih h2

theorem dictGet_set_self (m : List (String × α)) (k : String) (v : α) :
    dictGet (dictSet m k v) k = some v := by
  by_cases h : dictContains m k = true
  · have h' : m.any (fun p => p.1 = k) = true := h
    rw [dictSet, if_pos h']
    exact dictGet_map_set m k v h'
  · have hf : dictContains m k = false := by
      exact Bool.eq_false_iff.mpr h
    rw [dictSet_of_not_contains m k v hf]
    have hget : dictGet m k = none := by
      rw [dictContains_eq_isSome] at hf
      exact Option.not_isSome_iff_eq_none.mp (by simp [hf])
    rw [dictGet_append_right m k _ hget]
    simp [dictGet_cons]

/-! ## Configuration values

A tagged recursive value type for "arbitrary nested mapping" configs:
scalars (string, int, bool, None), mappings and sequences. -/

inductive CVal where
  | str (s : String)
  | int (n : Int)
  | bool (b : Bool)
  | null
  | dict (es : List (String × CVal))
  | arr (vs : List CVal)

mutual

/-- Structural (Python `==`) equality of config values. -/
def cvalBEq (a b : CVal) : Bool :=
  match a, b with
  | .str x, .str y => x = y
  | .int x, .int y => x = y
  | .bool x, .bool y => x = y
  | .null, .null => true
  | .dict x, .dict y => entriesBEq x y
  | .arr x, .arr y => listBEq x y
  | _, _ => false
termination_by structural a

/-- Structural equality of mapping entries. -/
def entriesBEq (a b : List (String × CVal)) : Bool :=
  match a, b with
  | [], [] => true
  | (k1, v1) :: r1, (k2, v2) :: r2 => k1 = k2 && cvalBEq v1 v2 && entriesBEq r1 r2
  | _, _ => false
termination_by structural a

/-- Structural equality of sequence elements. -/
def listBEq (a b : List CVal) : Bool :=
  match a, b with
  | [], [] => true
  | v1 :: r1, v2 :: r2 => cvalBEq v1 v2 && listBEq r1 r2
  | _, _ => false
termination_by structural a

end

/-- `isinstance(value, dict)`. -/
def CVal.isDict : CVal → Bool
  | .dict _ => true
  | _ => false

/-- `isinstance(value, str)`. -/
def CVal.isStr : CVal → Bool
  | .str _ => true
  | _ => false

/-! ## Credential resolution (`_get_credentials`, `_resolve_credentials`) -/

/-- `CREDENTIALS_KEY = "credentials"`. -/
def CREDENTIALS_KEY : String := "credentials"

/-- The message of the `KeyError` raised by `_get_credentials`
(apostrophes written as escapes). -/
def credErrMsg (credentials_name : String) : String :=
  "Unable to find credentials \x27" ++ credentials_name ++
    "\x27: check your data catalog and credentials configuration. See " ++
    "https://kedro.readthedocs.io/en/stable/kedro.io.DataCatalog.html for an example."

/-- `_get_credentials(credentials_name, credentials)`: exact lookup in the
credentials table, re-raising `KeyError` with an explanatory message. -/
def _get_credentials (credentials_name : String) (credentials : List (String × CVal)) :
    Except String CVal :=
  match dictGet credentials credentials_name with
  | some v => .ok v
  | none => .error (credErrMsg credentials_name)

mutual

/-- The inner `_map_value(key, value)` of `_resolve_credentials`: replace a
string value under the literal key `"credentials"` with its table entry,
recurse into mappings, pass everything else through. -/
def _map_value (credentials : List (String × CVal)) (key : String) (value : CVal) :
    Except String CVal :=
  match value with
  | .str s =>
    if key = CREDENTIALS_KEY then _get_credentials s credentials else .ok (.str s)
  | .dict es =>
    match _map_entries credentials es with
    | .ok es2 => .ok (.dict es2)
    | .error e => .error e
  | v => .ok v
termination_by structural value

/-- The dict comprehension `{k: _map_value(k, v) for k, v in ....items()}`. -/
def _map_entries (credentials : List (String × CVal)) (es : List (String × CVal)) :
    Except String (List (String × CVal)) :=
  match es with
  | [] => .ok []
  | (k, v) :: rest =>
    match _map_value credentials k v with
    | .error e => .error e
    | .ok v2 =>
      match _map_entries credentials rest with
      | .error e => .error e
      | .ok r => .ok ((k, v2) :: r)
termination_by structural es

end

/-- `_resolve_credentials(config, credentials)`.  `copy.deepcopy` produces an
equal value, so on the value level the function is the comprehension over the
config's items. -/
def _resolve_credentials (config : List (String × CVal)) (credentials : List (String × CVal)) :
    Except String (List (String × CVal)) :=
  _map_entries credentials config

/-! ## Name normalization and the frozen view (`_sub_nonword_chars`, `_FrozenDatasets`) -/

/-- A word character for the regex `\W` (letters, digits, underscore). -/
def isWordChar (c : Char) : Bool := c.isAlphanum || c = '_'

/-- Scanner for `re.sub(r"\W+", "__", name)`: every maximal run of non-word
characters becomes the fixed two-character separator.  `prevNW` records
whether the previous character belonged to a non-word run. -/
def snAux (prevNW : Bool) : List Char → List Char
  | [] => []
  | c :: rest =>
    if isWordChar c then c :: snAux false rest
    else (if prevNW then [] else ['_', '_']) ++ snAux true rest

/-- `_sub_nonword_chars(data_set_name)`. -/
def _sub_nonword_chars (data_set_name : String) : String :=
  String.mk (snAux false data_set_name.toList)

/-! ## Pattern specificity and precedence (`_specificity`, the `sorted` key) -/

/-- Skip up to and including the first closing delimiter (helper for the
lazy regex `\{.*?\}`). -/
def afterRBrace : List Char → List Char
  | [] => []
  | c :: rest => if c = rbrace then rest else afterRBrace rest

theorem afterRBrace_length_le (cs : List Char) : (afterRBrace cs).length ≤ cs.length := by
  induction cs with
  | nil => simp [afterRBrace]
  | cons c rest ih =>
    rw [afterRBrace]
    by_cases h : c = rbrace
    · simp [h]
    · simp only [h, if_false]
      exact Nat.le_succ_of_le ih

/-- Fuelled scanner for `re.sub(r"\{.*?\}", "", pattern)`: at an opening
delimiter with a later closing delimiter, drop the (shortest) bracketed
span; otherwise keep the character.  Fuel bounds the recursion; the callers
pass the length of the list, which always suffices. -/
def stripAux : Nat → List Char → List Char
  | 0, _ => []
  | _, [] => []
  | fuel + 1, c :: rest =>
    if c = lbrace && rest.contains rbrace then stripAux fuel (afterRBrace rest)
    else c :: stripAux fuel rest

/-- `_specificity(pattern)`: the number of literally matched characters,
i.e. the length after removing every `\{.*?\}` span. -/
def _specificity (pattern : String) : Nat :=
  (stripAux pattern.toList.length pattern.toList).length

/-- `pattern.count("{")`. -/
def countPlaceholders (pattern : String) : Nat :=
  pattern.toList.count lbrace

/-- Lexicographic `≤` on code points — Python string comparison. -/
def charsLe : List Char → List Char → Bool
  | [], _ => true
  | _ :: _, [] => false
  | a :: as, b :: bs => if a = b then charsLe as bs else decide (a < b)

/-- Python `p <= q` on strings. -/
def pyStrLe (p q : String) : Bool := charsLe p.toList q.toList

/-- The `sorted` key comparison of `DataCatalog.__init__`: ascending in the
tuple `(-_specificity(p), -p.count("{"), p)`, i.e. decreasing specificity,
then decreasing placeholder count, then lexicographic. -/
def patternKeyLe (p q : String) : Bool :=
  if _specificity p = _specificity q then
    if countPlaceholders p = countPlaceholders q then pyStrLe p q
    else decide (countPlaceholders q < countPlaceholders p)
  else decide (_specificity q < _specificity p)

/-- Insertion step of the (stable, total) sort. -/
def insertPat (p : String) : List String → List String
  | [] => [p]
  | q :: rest => if patternKeyLe p q then p :: q :: rest else q :: insertPat p rest

/-- The deterministic ordering of `self._sorted_dataset_patterns` computed
in `DataCatalog.__init__`. -/
def sortPatterns (l : List String) : List String := l.foldr insertPat []

/-! ## Template parsing and name matching (the `parse` library) -/

/-- A compiled pattern segment: a literal run or a named placeholder. -/
inductive Seg where
  | lit (s : String)
  | hole (name : String)

/-- Emit the accumulated literal run (accumulated in reverse). -/
def flushLit (acc : List Char) (rest : List Seg) : List Seg :=
  if acc.isEmpty then rest else .lit (String.mk acc.reverse) :: rest

/-- Scanner compiling a pattern string into segments.  `inHole = true` means
we are between an opening and a closing delimiter, with `acc` holding the
field name so far (reversed); otherwise `acc` holds the pending literal run.
Doubled delimiters escape a literal delimiter; an unclosed opening
delimiter is kept literally. -/
def patSegsAux (fuel : Nat) (inHole : Bool) (acc : List Char) (cs : List Char) : List Seg :=
  match fuel, cs with
  | _, [] =>
    if inHole then flushLit (acc ++ [lbrace]) [] else flushLit acc []
  | _, [c] =>
    if inHole then
      if c = rbrace then .hole (String.mk acc.reverse) :: flushLit [] []
      else flushLit ((c :: acc) ++ [lbrace]) []
    else if c = lbrace then flushLit (lbrace :: acc) []
    else flushLit (c :: acc) []
  | 0, cs => flushLit acc (flushLit cs.reverse [])
  | fuel + 1, c :: d :: rest2 =>
    if inHole then
      if c = rbrace then .hole (String.mk acc.reverse) :: patSegsAux fuel false [] (d :: rest2)
      else patSegsAux fuel true (c :: acc) (d :: rest2)
    else
      if c = lbrace && d = lbrace then patSegsAux fuel false (lbrace :: acc) rest2
      else if c = rbrace && d = rbrace then patSegsAux fuel false (rbrace :: acc) rest2
      else if c = lbrace then flushLit acc (patSegsAux fuel true [] (d :: rest2))
      else patSegsAux fuel false (c :: acc) (d :: rest2)

/-- Compile a pattern into segments (the fuel — one unit per consumed
character — always suffices). -/
def patSegs (pattern : String) : List Seg :=
  patSegsAux pattern.toList.length false [] pattern.toList

/-- Record a named capture (anonymous fields do not appear in `.named`). -/
def addCap (name : String) (v : List Char) (caps : List (String × String)) :
    List (String × String) :=
  if name = "" then caps else (name, String.mk v) :: caps

/-- Match segments against the whole remaining name.  A placeholder captures
one or more characters lazily (shortest capture first), like the `+?`
regular expressions the `parse` library compiles placeholders to. -/
def matchSegs (segs : List Seg) (cs : List Char) : Option (List (String × String)) :=
  match segs with
  | [] => if cs.isEmpty then some [] else none
  | .lit l :: rest =>
    if l.toList.isPrefixOf cs then matchSegs rest (cs.drop l.toList.length) else none
  | .hole nm :: rest =>
    (List.range cs.length).findSome? fun i =>
      (matchSegs rest (cs.drop (i + 1))).map fun caps => addCap nm (cs.take (i + 1)) caps

/-- `parse(pattern, name)`, reduced to its `.named` capture dictionary;
`none` is a failed (non-)match of the whole name against the whole
pattern. -/
def parseMatch (pattern name : String) : Option (List (String × String)) :=
  matchSegs (patSegs pattern) name.toList

/-! ## Python `str()` / `repr()` on config values (used by `_resolve_dataset`) -/

/-- Python `repr` of a string (single quotes, written as escapes). -/
def pyQuote (s : String) : String := "\x27" ++ s ++ "\x27"

/-- Python `repr(value)`, fuelled on nesting depth (`sizeOf` always
suffices). -/
def pyReprAux : Nat → CVal → String
  | _, .str s => pyQuote s
  | _, .int n => toString n
  | _, .bool b => if b then "True" else "False"
  | _, .null => "None"
  | 0, _ => ""
  | fuel + 1, .dict es =>
    "\x7b" ++
      String.intercalate ", " (es.map (fun p => pyQuote p.1 ++ ": " ++ pyReprAux fuel p.2)) ++
      "\x7d"
  | fuel + 1, .arr vs =>
    "[" ++ String.intercalate ", " (vs.map (pyReprAux fuel)) ++ "]"

mutual

/-- Nesting depth of a config value (fuel bound for `pyReprAux`). -/
def cvalDepth : CVal → Nat
  | .dict es => entriesDepth es + 1
  | .arr vs => listDepth vs + 1
  | _ => 0
termination_by structural v => v

/-- Nesting depth of a mapping's entries. -/
def entriesDepth : List (String × CVal) → Nat
  | [] => 0
  | (_, v) :: rest => max (cvalDepth v) (entriesDepth rest)
termination_by structural es => es

/-- Nesting depth of a sequence's elements. -/
def listDepth : List CVal → Nat
  | [] => 0
  | v :: rest => max (cvalDepth v) (listDepth rest)
termination_by structural vs => vs

end

/-- Python `str(value)` (strings unquoted, containers via `repr`). -/
def pyStr (v : CVal) : String :=
  match v with
  | .str s => s
  | v => pyReprAux (cvalDepth v) v

/-! ## `str.format_map` -/

/-- Failure modes of `str.format_map`: a missing capture key (`KeyError`)
or a malformed template (`ValueError`). -/
inductive FmtErr where
  | key (name : String)
  | value

/-- Scanner for `str.format_map(named)`.  `mode = some fld` means we are
inside a replacement field, with `fld` the (reversed) field name so far:
`\x7bkey\x7d` is replaced by `named[key]` (a missing key is a `KeyError`),
doubled delimiters are literal, an unbalanced delimiter is a
`ValueError`. -/
def fmAux (named : List (String × String)) (fuel : Nat) (mode : Option (List Char))
    (cs : List Char) : Except FmtErr (List Char) :=
  match fuel, cs with
  | _, [] =>
    match mode with
    | some _ => .error .value
    | none => .ok []
  | 0, _ :: _ => .error .value
  | fuel + 1, c :: rest =>
    match mode with
    | some fld =>
      if c = rbrace then
        match dictGet named (String.mk fld.reverse) with
        | some v =>
          match fmAux named fuel none rest with
          | .ok t => .ok (v.toList ++ t)
          | .error e => .error e
        | none => .error (.key (String.mk fld.reverse))
      else fmAux named fuel (some (c :: fld)) rest
    | none =>
      if c = lbrace then
        match rest with
        | d :: rest2 =>
          if d = lbrace then
            match fmAux named fuel none rest2 with
            | .ok t => .ok (lbrace :: t)
            | .error e => .error e
          else fmAux named fuel (some []) rest
        | [] => .error .value
      else if c = rbrace then
        match rest with
        | d :: rest2 =>
          if d = rbrace then
            match fmAux named fuel none rest2 with
            | .ok t => .ok (rbrace :: t)
            | .error e => .error e
          else .error .value
        | [] => .error .value
      else
        match fmAux named fuel none rest with
        | .ok t => .ok (c :: t)
        | .error e => .error e

/-- `string_value.format_map(result.named)` (the fuel — one unit per
consumed character — always suffices). -/
def formatMap (s : String) (named : List (String × String)) : Except FmtErr String :=
  match fmAux named s.toList.length none s.toList with
  | .ok t => .ok (String.mk t)
  | .error e => .error e

/-! ## Dataset capabilities and the catalog registry -/

/-- A load/save version pair (`kedro.io.core.Version`). -/
structure Version where
  load : Option String
  save : Option String

/-- Model of the external `AbstractDataSet`: an opaque capability recording
the arguments it was constructed from.  `versioned` stands for
`isinstance(·, AbstractVersionedDataSet)`; `version` for the `_version`
attribute replaced by `_copy(_version=...)`. -/
structure DS where
  name : String
  config : List (String × CVal)
  version : Option Version
  versioned : Bool

/-- Model of the external factory `AbstractDataSet.from_config(name, config,
load_version, save_version)`.  Whether the concrete class is versioned is
decided outside this module (by the `type` discriminator); following the
external contract we read it off the config's `versioned` flag. -/
def AbstractDataSetFromConfig (name : String) (config : List (String × CVal))
    (load_version save_version : Option String) : DS :=
  let versioned :=
    match dictGet config "versioned" with
    | some (.bool true) => true
    | _ => false
  { name := name
    config := config
    version := if versioned then some ⟨load_version, save_version⟩ else none
    versioned := versioned }

/-- The error taxonomy of the module (`DatasetNotFoundError`,
`DatasetAlreadyExistsError`, `DatasetError`, and the builtin `KeyError`,
`ValueError` and `AttributeError`). -/
inductive Err where
  | notFound (msg : String)
  | alreadyExists (msg : String)
  | datasetError (msg : String)
  | keyError (msg : String)
  | valueError
  | attrError

/-- The `DataCatalog` state: the exact-name map, the frozen attribute view
(its `__dict__`, keyed by normalized names), layer metadata, the pattern
table, the precedence-sorted pattern list, and the pattern-match cache. -/
structure Catalog where
  data_sets : List (String × DS)
  datasets : List (String × DS)
  layers : Option (List (CVal × List String))
  dataset_patterns : List (String × List (String × CVal))
  sorted_dataset_patterns : List String
  pattern_matches_cache : List (String × String)

/-- `_FrozenDatasets(collection)` built from one dict: normalized keys,
later entries winning on collision. -/
def _FrozenDatasets_ofDict (ds : List (String × DS)) : List (String × DS) :=
  ds.foldl (fun m p => dictSet m (_sub_nonword_chars p.1) p.2) []

/-- `DataCatalog.__init__(data_sets, feed_dict=None, layers,
dataset_patterns)`: copy the exact-name dict, build the frozen view, keep
the layers object, copy the pattern dict, sort the patterns by the
precedence key, and start with an empty match cache.  (The `feed_dict`
convenience parameter, which merely calls `add_feed_dict`, is not used by
any property here and is omitted.) -/
def DataCatalog_init (data_sets : List (String × DS))
    (layers : Option (List (CVal × List String)))
    (dataset_patterns : List (String × List (String × CVal))) : Catalog :=
  { data_sets := data_sets
    datasets := _FrozenDatasets_ofDict data_sets
    layers := layers
    dataset_patterns := dataset_patterns
    sorted_dataset_patterns := sortPatterns (dataset_patterns.map (fun p => p.1))
    pattern_matches_cache := [] }

/-- `DataCatalog.add(data_set_name, data_set, replace)`. -/
def add (c : Catalog) (data_set_name : String) (data_set : DS) (replace : Bool) :
    Except Err Catalog :=
  if dictContains c.data_sets data_set_name && !replace then
    .error (.alreadyExists
      ("Dataset \x27" ++ data_set_name ++ "\x27 has already been registered"))
  else
    .ok { c with
      data_sets := dictSet c.data_sets data_set_name data_set
      datasets := dictSet c.datasets (_sub_nonword_chars data_set_name) data_set }

/-- `DataCatalog.match_name_against_patterns(dataset_name)`: the first
pattern in precedence order that parses the name. -/
def match_name_against_patterns (c : Catalog) (dataset_name : String) : Option String :=
  c.sorted_dataset_patterns.find? (fun pattern => (parseMatch pattern dataset_name).isSome)

/-- `DataCatalog.exists_in_catalog_config(dataset_name)`.  Returns the
boolean result, the updated state (a successful match is cached), and
whether the matcher was invoked at all. -/
def exists_in_catalog_config (c : Catalog) (dataset_name : String) :
    Bool × Catalog × Bool :=
  if dictContains c.data_sets dataset_name ||
      dictContains c.pattern_matches_cache dataset_name then
    (true, c, false)
  else
    match match_name_against_patterns c dataset_name with
    | some matched_pattern =>
      (true,
       { c with pattern_matches_cache :=
          dictSet c.pattern_matches_cache dataset_name matched_pattern },
       true)
    | none => (false, c, true)

/-- The message of the `DatasetError` raised when a capture key referenced
by a template field is absent. -/
def resolveErrMsg (key matched_pattern : String) : String :=
  "Unable to resolve \x27" ++ key ++ "\x27 for the pattern \x27" ++ matched_pattern ++ "\x27"

/-- `isinstance(value, Iterable) and "\x7d" in value`: substring test for
strings, key membership for dicts, element equality for sequences;
non-iterable scalars fail the test. -/
def isIterableWithRBrace : CVal → Bool
  | .str s => s.toList.contains rbrace
  | .dict es => es.any (fun p => p.1 = String.mk [rbrace])
  | .arr vs =>
    vs.any (fun v =>
      match v with
      | .str s => s = String.mk [rbrace]
      | _ => false)
  | _ => false

/-- The substitution loop of `_resolve_dataset` over the deep-copied
template's items: fields passing the iterable-with-delimiter test are
replaced by `str(value).format_map(result.named)` (so they become strings);
a `KeyError` from a missing capture becomes a `DatasetError` naming the
field and the pattern; a `ValueError` propagates as such. -/
def resolveTemplateEntries (matched_pattern : String) (named : List (String × String)) :
    List (String × CVal) → Except Err (List (String × CVal))
  | [] => .ok []
  | (k, v) :: rest =>
    if isIterableWithRBrace v then
      match formatMap (pyStr v) named with
      | .ok s2 =>
        match resolveTemplateEntries matched_pattern named rest with
        | .ok r => .ok ((k, .str s2) :: r)
        | .error e => .error e
      | .error (.key _) => .error (.datasetError (resolveErrMsg k matched_pattern))
      | .error .value => .error .valueError
    else
      match resolveTemplateEntries matched_pattern named rest with
      | .ok r => .ok ((k, v) :: r)
      | .error e => .error e

/-- `DataCatalog._resolve_dataset(dataset_name, matched_pattern)`: parse the
name against the pattern, substitute the captures into the template, and
construct the capability (versions defaulted). -/
def _resolve_dataset (c : Catalog) (dataset_name matched_pattern : String) :
    Except Err DS :=
  match parseMatch matched_pattern dataset_name with
  | none => .error .attrError
  | some named =>
    match dictGet c.dataset_patterns matched_pattern with
    | none => .error (.keyError matched_pattern)
    | some template =>
      match resolveTemplateEntries matched_pattern named template with
      | .error e => .error e
      | .ok template2 => .ok (AbstractDataSetFromConfig dataset_name template2 none none)

/-- The tail of `_get_dataset`: read the (now present) exact registration
and, when a version override is given and the capability is versioned,
hand out a version-overridden copy instead of the stored instance. -/
def finishGet (c : Catalog) (data_set_name : String) (version : Option Version) :
    Except Err DS :=
  match dictGet c.data_sets data_set_name with
  | none => .error (.keyError data_set_name)
  | some data_set =>
    .ok (if version.isSome && data_set.versioned
         then { data_set with version := version } else data_set)

/-- `DataCatalog._get_dataset(data_set_name, version)`: exact hit, or
materialize a pattern match (cache, resolve, `add`), or fail with
not-found.  Returns the updated state, whether the pattern matcher ran
during this call, and the result.  (The `difflib` fuzzy suggestions
appended to the not-found message when `suggest=True`, purely cosmetic,
are not modelled.) -/
def _get_dataset (c : Catalog) (data_set_name : String) (version : Option Version) :
    Catalog × Bool × Except Err DS :=
  if dictContains c.data_sets data_set_name then
    (c, false, finishGet c data_set_name version)
  else
    match exists_in_catalog_config c data_set_name with
    | (found, c1, ran) =>
      if found then
        match dictGet c1.pattern_matches_cache data_set_name with
        | none => (c1, ran, .error (.keyError data_set_name))
        | some pattern =>
          match _resolve_dataset c1 data_set_name pattern with
          | .error e => (c1, ran, .error e)
          | .ok matched_dataset =>
            match add c1 data_set_name matched_dataset false with
            | .error e => (c1, ran, .error e)
            | .ok c2 => (c2, ran, finishGet c2 data_set_name version)
      else
        (c1, ran,
         .error (.notFound ("DataSet \x27" ++ data_set_name ++ "\x27 not found in the catalog")))

/-- `DataCatalog.load(name, version)`: resolve (with a load-only version
override) and delegate to the capability; the returned `DS` stands for the
capability whose `load()` produces the result. -/
def load (c : Catalog) (name : String) (version : Option String) :
    Catalog × Bool × Except Err DS :=
  let load_version := version.map (fun v => Version.mk (some v) none)
  _get_dataset c name load_version

/-- `DataCatalog.save(name, data)`: same resolution without a version
override. -/
def save (c : Catalog) (name : String) : Catalog × Bool × Except Err DS :=
  _get_dataset c name none

/-- `DataCatalog.release(name)`: same resolution. -/
def release (c : Catalog) (name : String) : Catalog × Bool × Except Err DS :=
  _get_dataset c name none

/-- `DataCatalog.exists(name)`, parametrized by the external capability's
`exists()` implementation: a would-be not-found downgrades to `false`,
every other error propagates. -/
def dcExists (dsExistsImpl : DS → Bool) (c : Catalog) (name : String) :
    Catalog × Except Err Bool :=
  match _get_dataset c name none with
  | (c1, _, .ok dataset) => (c1, .ok (dsExistsImpl dataset))
  | (c1, _, .error (.notFound _)) => (c1, .ok false)
  | (c1, _, .error e) => (c1, .error e)

/-- `DataCatalog.shallow_copy()` on the value level (object identity is
treated by the store-passing model below). -/
def shallow_copy (c : Catalog) : Catalog :=
  DataCatalog_init c.data_sets c.layers c.dataset_patterns

/-! ## `DataCatalog.from_config` -/

/-- Does the string contain the character? -/
def strContainsChar (s : String) (c : Char) : Bool := s.toList.contains c

/-- Does the name contain a placeholder delimiter *pair* (an opening
delimiter with a closing delimiter somewhere after it)?  This is the
discriminator the specification describes; the code tests only for the
closing delimiter. -/
def hasDelimiterPair (s : String) : Bool :=
  (stripAux s.toList.length s.toList).length < s.toList.length

/-- Insertion into the `defaultdict(set)` of layers:
`layers[ds_layer].add(ds_name)`. -/
def layersAdd (ls : List (CVal × List String)) (key : CVal) (n : String) :
    List (CVal × List String) :=
  if ls.any (fun p => cvalBEq p.1 key) then
    ls.map (fun p => if cvalBEq p.1 key then (p.1, p.2 ++ [n]) else p)
  else ls ++ [(key, [n])]

/-- The accumulator of the `from_config` construction loop. -/
structure FCAcc where
  data_sets : List (String × DS)
  dataset_patterns : List (String × List (String × CVal))
  layers : List (CVal × List String)
  trace : List DS

/-- The entry loop of `from_config`: a name containing the closing
delimiter goes to the pattern table with its config verbatim; any other
entry has its `layer` key popped, its credentials resolved, and a
capability constructed eagerly (recorded in `trace` in construction
order). -/
def fromConfigLoop (credentials : List (String × CVal))
    (load_versions : List (String × String)) (save_version : String) :
    List (String × List (String × CVal)) → FCAcc → FCAcc × Option Err
  | [], acc => (acc, none)
  | (ds_name, ds_config) :: rest, acc =>
    if strContainsChar ds_name rbrace then
      fromConfigLoop credentials load_versions save_version rest
        { acc with dataset_patterns := dictSet acc.dataset_patterns ds_name ds_config }
    else
      let ds_layer := dictGet ds_config "layer"
      let ds_config1 := removeKey ds_config "layer"
      let layers1 :=
        match ds_layer with
        | some lv => layersAdd acc.layers lv ds_name
        | none => acc.layers
      match _resolve_credentials ds_config1 credentials with
      | .error e => ({ acc with layers := layers1 }, some (.keyError e))
      | .ok ds_config2 =>
        let ds := AbstractDataSetFromConfig ds_name ds_config2
          (dictGet load_versions ds_name) (some save_version)
        fromConfigLoop credentials load_versions save_version rest
          { acc with
            data_sets := dictSet acc.data_sets ds_name ds
            layers := layers1
            trace := acc.trace ++ [ds] }

/-- `save_version or generate_timestamp()` (the empty string is falsy). -/
def effectiveSaveVersion (save_version : Option String) (generated : String) : String :=
  match save_version with
  | some s => if s = "" then generated else s
  | none => generated

/-- Insertion sort of strings (for the sorted missing-keys message). -/
def insertStr (p : String) : List String → List String
  | [] => [p]
  | q :: rest => if pyStrLe p q then p :: q :: rest else q :: insertStr p rest

/-- Sorted list of strings. -/
def sortStrings (l : List String) : List String := l.foldr insertStr []

/-- `DataCatalog.from_config(catalog, credentials, load_versions,
save_version)`.  `generated` injects the ambient `generate_timestamp()`
call.  Returns the capabilities constructed (in order) alongside the
result, so that "fails before any capability is built" is expressible. -/
def from_config (catalog : List (String × List (String × CVal)))
    (credentials : List (String × CVal)) (load_versions : List (String × String))
    (save_version : Option String) (generated : String) :
    List DS × Except Err Catalog :=
  let sv := effectiveSaveVersion save_version generated
  let missing_keys :=
    ((load_versions.map (fun p => p.1)).filter
      (fun k => ¬ dictContains catalog k = true)).dedup
  if missing_keys.isEmpty then
    match fromConfigLoop credentials load_versions sv catalog ⟨[], [], [], []⟩ with
    | (acc, some e) => (acc.trace, .error e)
    | (acc, none) =>
      (acc.trace,
       .ok (DataCatalog_init acc.data_sets
         (if acc.layers.isEmpty then none else some acc.layers)
         acc.dataset_patterns))
  else
    ([],
     .error (.notFound
       ("\x27load_versions\x27 keys [" ++
        String.intercalate ", " (sortStrings missing_keys) ++
        "] are not found in the catalog.")))

/-! ## The frozen view's mutation interface (`_FrozenDatasets.__setattr__`
and Python's default attribute deletion) -/

/-- `_FrozenDatasets.__setattr__(key, value)`: always raises
`AttributeError`, with a message depending on whether the attribute
already exists; the view (returned unchanged) is never modified. -/
def frozenSetattr (d : List (String × DS)) (key : String) (_value : DS) :
    List (String × DS) × Except String Unit :=
  (d,
   .error ("Operation not allowed! " ++
     (if dictContains d key then "Please change datasets through configuration."
      else "Please use DataCatalog.add() instead.")))

/-- `del view.key`: `_FrozenDatasets` defines no `__delattr__`, so Python's
default `object.__delattr__` applies — it removes an existing attribute
from the instance `__dict__` and raises a plain `AttributeError` for a
missing one. -/
def frozenDelattr (d : List (String × DS)) (key : String) :
    Except String (List (String × DS)) :=
  if dictContains d key then .ok (removeKey d key)
  else .error key

/-! ## Object-identity model of `shallow_copy` (store-passing)

`DataCatalog.__init__` runs `dict(data_sets or \x7b\x7d)` and
`dict(dataset_patterns or \x7b\x7d)` — fresh dictionary objects — while
`self.layers = layers` aliases the argument.  To reason about object
identity we model just these three fields over an explicit store of
dictionary objects; datasets and pattern configs are opaque ids. -/

/-- A store of dictionary objects, addressed by position. -/
structure H3 where
  store : List (List (String × Nat))

/-- Allocate a fresh dictionary object. -/
def h3Alloc (h : H3) (d : List (String × Nat)) : H3 × Nat :=
  (⟨h.store ++ [d]⟩, h.store.length)

/-- Read the dictionary object at an address. -/
def h3Read (h : H3) (a : Nat) : List (String × Nat) :=
  h.store.getD a []

/-- Overwrite the dictionary object at an address (in-place mutation). -/
def h3Write (h : H3) (a : Nat) (d : List (String × Nat)) : H3 :=
  ⟨h.store.set a d⟩

/-- A catalog object at the identity level: addresses of its exact-name
dict and its pattern dict, and the aliased layers object. -/
structure CatObj where
  data_sets : Nat
  dataset_patterns : Nat
  layers : Option Nat

/-- Identity level `DataCatalog.__init__`: `dict(...)` allocates fresh
dictionaries with the given entries; `layers` is aliased as passed. -/
def DataCatalog_init_obj (h : H3) (data_sets : List (String × Nat))
    (layers : Option Nat) (dataset_patterns : List (String × Nat)) : H3 × CatObj :=
  let (h1, a) := h3Alloc h data_sets
  let (h2, b) := h3Alloc h1 dataset_patterns
  (h2, ⟨a, b, layers⟩)

/-- Identity level `DataCatalog.shallow_copy()`: re-run `__init__` on the
current contents. -/
def shallow_copy_obj (h : H3) (c : CatObj) : H3 × CatObj :=
  DataCatalog_init_obj h (h3Read h c.data_sets) c.layers (h3Read h c.dataset_patterns)

/-- Identity level `DataCatalog.add(name, ds)` (no replacement): mutate the
exact-name dictionary in place. -/
def add_obj (h : H3) (c : CatObj) (name : String) (ds : Nat) : Except Err H3 :=
  if dictContains (h3Read h c.data_sets) name then
    .error (.alreadyExists name)
  else
    .ok (h3Write h c.data_sets (dictSet (h3Read h c.data_sets) name ds))

/-! ## Mutation-level model of `_resolve_credentials` (store-passing)

Purity "no mutation of the inputs" is a statement about Python objects, so
we embed `_resolve_credentials` a second time over an explicit store in
which every mapping is an addressed cell (scalars are immutable and kept
inline).  `copy.deepcopy` allocates fresh cells; the dict comprehensions
build new cells; nothing ever writes to an existing cell, and the frame
theorem below proves exactly that. -/

/-- A config value at the object level: scalars inline, mappings by
address. -/
inductive PV where
  | str (s : String)
  | int (n : Int)
  | bool (b : Bool)
  | null
  | dictRef (a : Nat)

/-- A dictionary cell: the entries of one mapping object. -/
abbrev Cell := List (String × PV)

/-- The store of mapping objects. -/
structure H9 where
  store : List Cell

/-- Allocate a fresh mapping object. -/
def h9Alloc (h : H9) (c : Cell) : H9 × Nat :=
  (⟨h.store ++ [c]⟩, h.store.length)

/-- Read the mapping object at an address. -/
def h9Read (h : H9) (a : Nat) : Cell :=
  h.store.getD a []

mutual

/-- `copy.deepcopy` of a value: scalars are returned as-is, mappings are
recursively copied into fresh cells.  The fuel — one unit per nesting
level — always suffices for the (acyclic) heaps the code builds. -/
def deepcopyPV (fuel : Nat) (h : H9) (v : PV) : H9 × PV :=
  match fuel, v with
  | 0, v => (h, v)
  | fuel + 1, .dictRef a =>
    let (h1, es) := deepcopyCell fuel h (h9Read h a)
    let (h2, na) := h9Alloc h1 es
    (h2, .dictRef na)
  | _ + 1, v => (h, v)

/-- `copy.deepcopy` of a mapping's entries. -/
def deepcopyCell (fuel : Nat) (h : H9) (es : Cell) : H9 × Cell :=
  match es with
  | [] => (h, [])
  | (k, v) :: rest =>
    let (h1, v1) := deepcopyPV fuel h v
    let (h2, rest1) := deepcopyCell fuel h1 rest
    (h2, (k, v1) :: rest1)

end

mutual

/-- Object-level `_map_value(key, value)`: a credential reference is
replaced by the table's value (by reference — aliasing the table's
object); a mapping is rebuilt as a fresh cell; everything else passes
through.  Always returns the store (unchanged so far on error). -/
def mapValueObj (fuel : Nat) (credsAddr : Nat) (h : H9) (key : String) (v : PV) :
    H9 × Except String PV :=
  match fuel, v with
  | 0, v => (h, .ok v)
  | _ + 1, .str s =>
    if key = CREDENTIALS_KEY then
      match dictGet (h9Read h credsAddr) s with
      | some cv => (h, .ok cv)
      | none => (h, .error (credErrMsg s))
    else (h, .ok (.str s))
  | fuel + 1, .dictRef a =>
    match mapEntriesObj fuel credsAddr h (h9Read h a) with
    | (h1, .ok es) =>
      let (h2, na) := h9Alloc h1 es
      (h2, .ok (.dictRef na))
    | (h1, .error e) => (h1, .error e)
  | _ + 1, v => (h, .ok v)

/-- Object-level dict comprehension over a cell's entries. -/
def mapEntriesObj (fuel : Nat) (credsAddr : Nat) (h : H9) (es : Cell) :
    H9 × Except String Cell :=
  match es with
  | [] => (h, .ok [])
  | (k, v) :: rest =>
    match mapValueObj fuel credsAddr h k v with
    | (h1, .error e) => (h1, .error e)
    | (h1, .ok v1) =>
      match mapEntriesObj fuel credsAddr h1 rest with
      | (h2, .error e) => (h2, .error e)
      | (h2, .ok r) => (h2, .ok ((k, v1) :: r))

end

/-- Object-level `_resolve_credentials(config, credentials)`: deep-copy the
config object, then build the result dictionary from the copy's items.
Returns the final store and, on success, the address of the fresh result
object. -/
def resolveCredentialsObj (fuel : Nat) (h : H9) (configAddr credsAddr : Nat) :
    H9 × Except String Nat :=
  let (h1, es) := deepcopyCell fuel h (h9Read h configAddr)
  let (h2, ca) := h9Alloc h1 es
  match mapEntriesObj fuel credsAddr h2 (h9Read h2 ca) with
  | (h3, .ok res) =>
    let (h4, ra) := h9Alloc h3 res
    (h4, .ok ra)
  | (h3, .error e) => (h3, .error e)

/-! ## C6 — credential resolution semantics -/

/-- C6: Credential resolution replaces, at every nesting depth of the
config's mappings (the recursion equation of the fourth conjunct, together
with the top level being the same comprehension, fifth conjunct), the
value of any key literally equal to the reserved credentials key whose
value is a string with the looked-up entry of the credentials table (first
conjunct); it fails with a missing-credentials error naming the unresolved
reference whenever that string is absent from the table (second conjunct),
and passes all non-mapping, non-credential values through unchanged (third
conjunct). -/
theorem c6_credential_resolution (credentials : List (String × CVal)) :
    (∀ s v, dictGet credentials s = some v →
      _map_value credentials CREDENTIALS_KEY (.str s) = .ok v) ∧
    (∀ s, dictGet credentials s = none →
      _map_value credentials CREDENTIALS_KEY (.str s) = .error (credErrMsg s) ∧
      ∃ pre post, credErrMsg s = pre ++ (s ++ post)) ∧
    (∀ k v, v.isDict = false → (k = CREDENTIALS_KEY → v.isStr = false) →
      _map_value credentials k v = .ok v) ∧
    (∀ k es, _map_value credentials k (.dict es) =
      match _map_entries credentials es with
      | .ok es2 => .ok (.dict es2)
      | .error e => .error e) ∧
    (∀ config, _resolve_credentials config credentials = _map_entries credentials config) := by
  refine ⟨?_, ?_, ?_, ?_, ?_⟩
  · intro s v h
    simp [_map_value, _get_credentials, h]
  · intro s h
    refine ⟨by simp [_map_value, _get_credentials, h], ?_⟩
    exact ⟨"Unable to find credentials \x27",
      "\x27: check your data catalog and credentials configuration. See " ++
        "https://kedro.readthedocs.io/en/stable/kedro.io.DataCatalog.html for an example.",
      by simp [credErrMsg, String.append_assoc]⟩
  · intro k v hdict hcred
    cases v with
    | str s =>
      have : ¬ k = CREDENTIALS_KEY := by
        intro hk
        exact absurd (hcred hk) (by simp [CVal.isStr])
      simp [_map_value, this]
    | int n => simp [_map_value]
    | bool b => simp [_map_value]
    | null => simp [_map_value]
    | dict es => simp [CVal.isDict] at hdict
    | arr vs => simp [_map_value]
  · intro k es
    simp [_map_value]
  · intro config
    rfl

/-- Witness for C6 at concrete inputs. -/
theorem c6_credential_resolution_witness :
    _map_value [("secretA", CVal.int 1)] CREDENTIALS_KEY (.str "secretA") = .ok (.int 1) ∧
    _map_value [("secretA", CVal.int 1)] CREDENTIALS_KEY (.str "secretC") =
      .error (credErrMsg "secretC") ∧
    _map_value [("secretA", CVal.int 1)] "other" (.str "secretC") = .ok (.str "secretC") := by
  obtain ⟨h1, h2, h3, _, _⟩ := c6_credential_resolution [("secretA", CVal.int 1)]
  exact ⟨h1 "secretA" (.int 1) rfl, (h2 "secretC" rfl).1,
    h3 "other" (.str "secretC") rfl (by intro h; simp [CREDENTIALS_KEY] at h)⟩

/-! ## C7 — dangling `load_versions` checked before any construction -/

/-- C7: Registry construction from config fails with a configuration error
(the code's `DatasetNotFoundError`) if `load_versions` references a name
absent from the config tree, and this failure occurs before any capability
is built: the construction trace is empty. -/
theorem c7_load_versions_checked_first (catalog : List (String × List (String × CVal)))
    (credentials : List (String × CVal)) (load_versions : List (String × String))
    (save_version : Option String) (generated : String) (k : String)
    (hk : k ∈ load_versions.map (fun p => p.1))
    (habs : dictContains catalog k = false) :
    ∃ msg, from_config catalog credentials load_versions save_version generated =
      ([], .error (.notFound msg)) := by
  have hmem : k ∈ ((load_versions.map (fun p => p.1)).filter
      (fun k => ¬ dictContains catalog k = true)).dedup := by
    rw [List.mem_dedup, List.mem_filter]
    exact ⟨hk, by simp [habs]⟩
  have hne : ((load_versions.map (fun p => p.1)).filter
      (fun k => ¬ dictContains catalog k = true)).dedup ≠ [] :=
    List.ne_nil_of_mem hmem
  have hempty : ((load_versions.map (fun p => p.1)).filter
      (fun k => ¬ dictContains catalog k = true)).dedup.isEmpty = false := by
    cases hcase : ((load_versions.map (fun p => p.1)).filter
        (fun k => ¬ dictContains catalog k = true)).dedup with
    | nil => exact absurd hcase hne
    | cons a l => rfl
  refine ⟨"\x27load_versions\x27 keys [" ++
      String.intercalate ", " (sortStrings (((load_versions.map (fun p => p.1)).filter
        (fun k => ¬ dictContains catalog k = true)).dedup)) ++
      "] are not found in the catalog.", ?_⟩
  simp only [from_config, hempty, Bool.false_eq_true, if_false]

/-- Witness for C7 at a concrete input. -/
theorem c7_load_versions_checked_first_witness :
    ∃ msg, from_config [("cars", [("type", CVal.str "csv")])] [] [("missing_name", "v1")]
      none "ts" = ([], .error (.notFound msg)) :=
  c7_load_versions_checked_first [("cars", [("type", CVal.str "csv")])] [] [("missing_name", "v1")]
    none "ts" "missing_name" (by simp) (by rfl)

/-! ## C8 — mutating the frozen view -/

/-- A throwaway dataset capability for concrete counterexamples. -/
def dsA : DS := { name := "a", config := [], version := none, versioned := false }

/-- C8 counterexample: the claim says *any* attempt to delete an attribute
of the frozen view fails with an operation-not-permitted error and leaves
the view unchanged.  But `_FrozenDatasets` defines only `__setattr__`, not
`__delattr__`, so Python's default deletion applies: deleting the existing
attribute `"a"` succeeds and removes it. -/
theorem c8_counterexample :
    frozenDelattr [("a", dsA)] "a" = .ok [] := by rfl

/-- C8 (amended): setting any attribute on the frozen view — existing or
not — fails with an operation-not-permitted `AttributeError` whose message
distinguishes an existing attribute (directing to configuration) from a
missing one (directing to `DataCatalog.add()`), and the view is unchanged
by the attempt.  Deletion, however, is not intercepted: Python's default
behaviour removes an existing attribute and raises a plain
`AttributeError` for a missing one. -/
theorem c8_amended_frozen_view (d : List (String × DS)) (key : String) (value : DS) :
    (frozenSetattr d key value).1 = d ∧
    (dictContains d key = true →
      (frozenSetattr d key value).2 =
        .error "Operation not allowed! Please change datasets through configuration.") ∧
    (dictContains d key = false →
      (frozenSetattr d key value).2 =
        .error "Operation not allowed! Please use DataCatalog.add() instead.") ∧
    (dictContains d key = true → frozenDelattr d key = .ok (removeKey d key)) ∧
    (dictContains d key = false → frozenDelattr d key = .error key) := by
  refine ⟨rfl, ?_, ?_, ?_, ?_⟩ <;> intro h <;> simp [frozenSetattr, frozenDelattr, h]

/-- Witness for C8 (amended) at concrete inputs. -/
theorem c8_amended_frozen_view_witness :
    (frozenSetattr [("a", dsA)] "a" dsA).2 =
      .error "Operation not allowed! Please change datasets through configuration." ∧
    (frozenSetattr [("a", dsA)] "b" dsA).2 =
      .error "Operation not allowed! Please use DataCatalog.add() instead." := by
  refine ⟨(c8_amended_frozen_view [("a", dsA)] "a" dsA).2.1 (by rfl),
    ((c8_amended_frozen_view [("a", dsA)] "b" dsA).2.2.1 (by rfl))⟩

/-! ## C3 — `shallow_copy` and object identity -/

theorem h3Read_append (h : H3) (t : List (List (String × Nat))) (a : Nat)
    (ha : a < h.store.length) : h3Read ⟨h.store ++ t⟩ a = h3Read h a := by
  simp only [h3Read]
  exact List.getD_append h.store t [] a ha

theorem h3Read_write_ne (h : H3) (a b : Nat) (d : List (String × Nat)) (hne : a ≠ b) :
    h3Read (h3Write h a d) b = h3Read h b := by
  simp only [h3Read, h3Write, List.getD_eq_getElem?_getD]
  rw [List.getElem?_set_ne hne]

/-- C3 counterexample: the claim says `shallow_copy()` shares the very
exact-name dict object, so an `add` on the copy would be visible through
the original.  But `shallow_copy` re-runs `__init__`, which executes
`dict(data_sets or ...)` — a *fresh* dictionary.  Concretely: copying a
one-entry catalog yields a different `data_sets` address, and after adding
`"x"` to the copy the original's exact-name dict still has no `"x"`. -/
theorem c3_counterexample :
    (shallow_copy_obj (DataCatalog_init_obj ⟨[]⟩ [("a", 7)] none []).1
        (DataCatalog_init_obj ⟨[]⟩ [("a", 7)] none []).2).2.data_sets ≠
      (DataCatalog_init_obj ⟨[]⟩ [("a", 7)] none []).2.data_sets ∧
    add_obj (shallow_copy_obj (DataCatalog_init_obj ⟨[]⟩ [("a", 7)] none []).1
        (DataCatalog_init_obj ⟨[]⟩ [("a", 7)] none []).2).1
      (shallow_copy_obj (DataCatalog_init_obj ⟨[]⟩ [("a", 7)] none []).1
        (DataCatalog_init_obj ⟨[]⟩ [("a", 7)] none []).2).2 "x" 0 =
      .ok ⟨[[("a", 7)], [], [("a", 7), ("x", 0)], []]⟩ ∧
    dictContains
      (h3Read ⟨[[("a", 7)], [], [("a", 7), ("x", 0)], []]⟩
        (DataCatalog_init_obj ⟨[]⟩ [("a", 7)] none []).2.data_sets) "x" = false := by
  exact ⟨by decide, by rfl, by rfl⟩

/-- C3 (amended): `shallow_copy()` returns a new registry built by
re-running `__init__` on the original's contents: its exact-name map and
pattern table are *fresh* dictionary objects holding the same entries
(entry values — the capability references — are shared, not duplicated),
while the layers object is aliased.  Consequently a dataset added to the
copy is *not* visible through the original's exact-name map, and vice
versa. -/
theorem c3_amended_shallow_copy (h : H3) (c : CatObj)
    (hds : c.data_sets < h.store.length)
    (hpat : c.dataset_patterns < h.store.length) :
    (shallow_copy_obj h c).2.data_sets ≠ c.data_sets ∧
    (shallow_copy_obj h c).2.dataset_patterns ≠ c.dataset_patterns ∧
    (shallow_copy_obj h c).2.layers = c.layers ∧
    h3Read (shallow_copy_obj h c).1 (shallow_copy_obj h c).2.data_sets =
      h3Read h c.data_sets ∧
    h3Read (shallow_copy_obj h c).1 (shallow_copy_obj h c).2.dataset_patterns =
      h3Read h c.dataset_patterns ∧
    h3Read (shallow_copy_obj h c).1 c.data_sets = h3Read h c.data_sets ∧
    (∀ n ds h3, add_obj (shallow_copy_obj h c).1 (shallow_copy_obj h c).2 n ds = .ok h3 →
      h3Read h3 c.data_sets = h3Read h c.data_sets) ∧
    (∀ n ds h3, add_obj (shallow_copy_obj h c).1 c n ds = .ok h3 →
      h3Read h3 (shallow_copy_obj h c).2.data_sets =
        h3Read (shallow_copy_obj h c).1 (shallow_copy_obj h c).2.data_sets) := by
  have hfst : (shallow_copy_obj h c).1 =
      ⟨h.store ++ [h3Read h c.data_sets] ++ [h3Read h c.dataset_patterns]⟩ := rfl
  have hds2 : (shallow_copy_obj h c).2.data_sets = h.store.length := rfl
  have hpat2 : (shallow_copy_obj h c).2.dataset_patterns =
      (h.store ++ [h3Read h c.data_sets]).length := rfl
  have hpat2' : (shallow_copy_obj h c).2.dataset_patterns = h.store.length + 1 := by
    rw [hpat2]
    simp
  have hlay2 : (shallow_copy_obj h c).2.layers = c.layers := rfl
  have hdsne : (shallow_copy_obj h c).2.data_sets ≠ c.data_sets := by
    rw [hds2]
    omega
  have hpatne : (shallow_copy_obj h c).2.dataset_patterns ≠ c.dataset_patterns := by
    rw [hpat2']
    omega
  have hr1 : h3Read (shallow_copy_obj h c).1 (shallow_copy_obj h c).2.data_sets =
      h3Read h c.data_sets := by
    rw [hfst, hds2]
    simp only [h3Read, List.append_assoc]
    rw [List.getD_append_right _ _ _ _ (Nat.le_refl _)]
    simp
  have hr2 : h3Read (shallow_copy_obj h c).1 (shallow_copy_obj h c).2.dataset_patterns =
      h3Read h c.dataset_patterns := by
    rw [hfst, hpat2']
    simp only [h3Read, List.append_assoc]
    rw [List.getD_append_right _ _ _ _ (by simp)]
    simp
  have hr3 : h3Read (shallow_copy_obj h c).1 c.data_sets = h3Read h c.data_sets := by
    rw [hfst]
    rw [List.append_assoc]
    exact h3Read_append h _ _ hds
  refine ⟨hdsne, hpatne, hlay2, hr1, hr2, hr3, ?_, ?_⟩
  · intro n ds h3 hadd
    rw [add_obj] at hadd
    by_cases hcont : dictContains (h3Read (shallow_copy_obj h c).1
        (shallow_copy_obj h c).2.data_sets) n
    · simp [hcont] at hadd
    · simp only [hcont, Bool.false_eq_true, if_false, Except.ok.injEq] at hadd
      rw [← hadd, h3Read_write_ne _ _ _ _ hdsne]
      exact hr3
  · intro n ds h3 hadd
    rw [add_obj] at hadd
    by_cases hcont : dictContains (h3Read (shallow_copy_obj h c).1 c.data_sets) n
    · simp [hcont] at hadd
    · simp only [hcont, Bool.false_eq_true, if_false, Except.ok.injEq] at hadd
      rw [← hadd]
      exact h3Read_write_ne _ _ _ _ (fun heq => hdsne heq.symm)

/-- Witness for C3 (amended) at a concrete input. -/
theorem c3_amended_shallow_copy_witness :
    (shallow_copy_obj ⟨[[("a", 7)], []]⟩ ⟨0, 1, none⟩).2.data_sets ≠ 0 ∧
    h3Read (shallow_copy_obj ⟨[[("a", 7)], []]⟩ ⟨0, 1, none⟩).1
      (shallow_copy_obj ⟨[[("a", 7)], []]⟩ ⟨0, 1, none⟩).2.data_sets =
      h3Read ⟨[[("a", 7)], []]⟩ 0 := by
  have := c3_amended_shallow_copy ⟨[[("a", 7)], []]⟩ ⟨0, 1, none⟩
    (by decide) (by decide)
  exact ⟨this.1, this.2.2.2.1⟩

/-! ## C1 — pattern precedence ordering -/

theorem charsLe_total (a b : List Char) : charsLe a b = true ∨ charsLe b a = true := by
  induction a generalizing b with
  | nil => left; rfl
  | cons x xs ih =>
    cases b with
    | nil => right; rfl
    | cons y ys =>
      by_cases hxy : x = y
      · subst hxy
        rcases ih ys with h | h
        · left; simpa [charsLe] using h
        · right; simpa [charsLe] using h
      · rcases lt_trichotomy x y with h | h | h
        · left; simp [charsLe, hxy, h]
        · exact absurd h hxy
        · right
          have hyx : ¬ y = x := fun e => hxy e.symm
          simp [charsLe, hyx, h]

theorem charsLe_trans (a b c : List Char) (h1 : charsLe a b = true)
    (h2 : charsLe b c = true) : charsLe a c = true := by
  induction a generalizing b c with
  | nil => rfl
  | cons x xs ih =>
    cases b with
    | nil => simp [charsLe] at h1
    | cons y ys =>
      cases c with
      | nil => simp [charsLe] at h2
      | cons z zs =>
        simp only [charsLe] at h1 h2 ⊢
        by_cases hxy : x = y
        · rw [if_pos hxy] at h1
          by_cases hyz : y = z
          · rw [if_pos hyz] at h2
            rw [if_pos (hxy.trans hyz)]
            exact ih ys zs h1 h2
          · rw [if_neg hyz, decide_eq_true_eq] at h2
            have hlt : x < z := hxy.symm ▸ h2
            rw [if_neg (ne_of_lt hlt), decide_eq_true_eq]
            exact hlt
        · rw [if_neg hxy, decide_eq_true_eq] at h1
          by_cases hyz : y = z
          · have hlt : x < z := hyz ▸ h1
            rw [if_neg (ne_of_lt hlt), decide_eq_true_eq]
            exact hlt
          · rw [if_neg hyz, decide_eq_true_eq] at h2
            have hlt : x < z := lt_trans h1 h2
            rw [if_neg (ne_of_lt hlt), decide_eq_true_eq]
            exact hlt

/-- The comparison key, spelled out: decreasing specificity, then
decreasing placeholder count, then lexicographically ascending. -/
theorem patternKeyLe_iff (p q : String) :
    patternKeyLe p q = true ↔
      (_specificity q < _specificity p ∨
       (_specificity p = _specificity q ∧ countPlaceholders q < countPlaceholders p) ∨
       (_specificity p = _specificity q ∧ countPlaceholders p = countPlaceholders q ∧
        pyStrLe p q = true)) := by
  unfold patternKeyLe
  by_cases h1 : _specificity p = _specificity q
  · by_cases h2 : countPlaceholders p = countPlaceholders q
    · rw [if_pos h1, if_pos h2]
      constructor
      · intro h; exact Or.inr (Or.inr ⟨h1, h2, h⟩)
      · rintro (hlt | ⟨_, hlt⟩ | ⟨_, _, hle⟩)
        · omega
        · omega
        · exact hle
    · rw [if_pos h1, if_neg h2, decide_eq_true_eq]
      constructor
      · intro h; exact Or.inr (Or.inl ⟨h1, h⟩)
      · rintro (hlt | ⟨_, hlt⟩ | ⟨_, heq, _⟩)
        · omega
        · exact hlt
        · exact absurd heq h2
  · rw [if_neg h1, decide_eq_true_eq]
    constructor
    · intro h; exact Or.inl h
    · rintro (hlt | ⟨heq, _⟩ | ⟨heq, _, _⟩)
      · exact hlt
      · exact absurd heq h1
      · exact absurd heq h1

theorem patternKeyLe_total (p q : String) :
    patternKeyLe p q = true ∨ patternKeyLe q p = true := by
  rw [patternKeyLe_iff, patternKeyLe_iff]
  rcases Nat.lt_trichotomy (_specificity p) (_specificity q) with h | h | h
  · right; left; exact h
  · rcases Nat.lt_trichotomy (countPlaceholders p) (countPlaceholders q) with h2 | h2 | h2
    · right; right; left; exact ⟨h.symm, h2⟩
    · rcases charsLe_total p.toList q.toList with h3 | h3
      · left; right; right; exact ⟨h, h2, h3⟩
      · right; right; right; exact ⟨h.symm, h2.symm, h3⟩
    · left; right; left; exact ⟨h, h2⟩
  · left; left; exact h

theorem patternKeyLe_trans (p q r : String) (h1 : patternKeyLe p q = true)
    (h2 : patternKeyLe q r = true) : patternKeyLe p r = true := by
  rw [patternKeyLe_iff] at h1 h2 ⊢
  rcases h1 with ha | ⟨ha1, ha2⟩ | ⟨ha1, ha2, ha3⟩ <;>
    rcases h2 with hb | ⟨hb1, hb2⟩ | ⟨hb1, hb2, hb3⟩
  · left; omega
  · left; omega
  · left; omega
  · left; omega
  · right; left; exact ⟨by omega, by omega⟩
  · right; left; exact ⟨by omega, by omega⟩
  · left; omega
  · right; left; exact ⟨by omega, by omega⟩
  · right; right; exact ⟨by omega, by omega, charsLe_trans _ _ _ ha3 hb3⟩

theorem insertPat_perm (p : String) (l : List String) :
    (insertPat p l).Perm (p :: l) := by
  induction l with
  | nil => exact List.Perm.refl _
  | cons q rest ih =>
    rw [insertPat]
    by_cases h : patternKeyLe p q
    · rw [if_pos h]
    · rw [if_neg h]
      exact List.Perm.trans (ih.cons q) (List.Perm.swap p q rest)

theorem insertPat_pairwise (p : String) (l : List String)
    (hl : l.Pairwise (fun a b => patternKeyLe a b = true)) :
    (insertPat p l).Pairwise (fun a b => patternKeyLe a b = true) := by
  induction l with
  | nil => simp [insertPat]
  | cons q rest ih =>
    rcases List.pairwise_cons.mp hl with ⟨hq, hrest⟩
    rw [insertPat]
    by_cases h : patternKeyLe p q
    · rw [if_pos h]
      refine List.pairwise_cons.mpr ⟨?_, hl⟩
      intro x hx
      rcases List.mem_cons.mp hx with rfl | hx2
      · exact h
      · exact patternKeyLe_trans p q x h (hq x hx2)
    · rw [if_neg h]
      have hqp : patternKeyLe q p = true := by
        rcases patternKeyLe_total p q with h' | h'
        · exact absurd h' h
        · exact h'
      refine List.pairwise_cons.mpr ⟨?_, ih hrest⟩
      intro x hx
      have hx3 := (insertPat_perm p rest).mem_iff.mp hx
      rcases List.mem_cons.mp hx3 with rfl | hx2
      · exact hqp
      · exact hq x hx2

theorem sortPatterns_pairwise (l : List String) :
    (sortPatterns l).Pairwise (fun a b => patternKeyLe a b = true) := by
  induction l with
  | nil => simp [sortPatterns]
  | cons p rest ih => exact insertPat_pairwise p _ ih

theorem sortPatterns_perm (l : List String) : (sortPatterns l).Perm l := by
  induction l with
  | nil => exact List.Perm.refl _
  | cons p rest ih =>
    exact List.Perm.trans (insertPat_perm p (sortPatterns rest)) (ih.cons p)

/-- C1 counterexample: the claim says that among patterns of equal
specificity, patterns with *fewer* placeholders come first.  The code
sorts by the key `(-specificity, -count, pattern)` — *more* placeholders
first.  Concretely, for the two equal-specificity patterns with one and
two placeholders, registry construction puts the two-placeholder pattern
first. -/
theorem c1_counterexample :
    _specificity "a\x7bx\x7d" = _specificity "a\x7bx\x7d\x7by\x7d" ∧
    countPlaceholders "a\x7bx\x7d" < countPlaceholders "a\x7bx\x7d\x7by\x7d" ∧
    (DataCatalog_init [] none
        [("a\x7bx\x7d", []), ("a\x7bx\x7d\x7by\x7d", [])]).sorted_dataset_patterns =
      ["a\x7bx\x7d\x7by\x7d", "a\x7bx\x7d"] :=
  ⟨by decide, by decide, by rfl⟩

/-- C1 (amended): for every set of registered factory patterns, the
precedence order fixed at registry construction is: patterns with higher
specificity (count of literal, non-placeholder characters) first; among
patterns of equal specificity, patterns with *more* placeholders first
(decreasing placeholder count); remaining ties broken by lexicographic
ascending order.  The sorted list is a permutation of the registered
pattern names, and — being a pure function of them — deterministic. -/
theorem c1_amended_pattern_precedence (data_sets : List (String × DS))
    (layers : Option (List (CVal × List String)))
    (dataset_patterns : List (String × List (String × CVal))) :
    ((DataCatalog_init data_sets layers dataset_patterns).sorted_dataset_patterns).Pairwise
      (fun p q =>
        _specificity q < _specificity p ∨
        (_specificity p = _specificity q ∧ countPlaceholders q < countPlaceholders p) ∨
        (_specificity p = _specificity q ∧ countPlaceholders p = countPlaceholders q ∧
         pyStrLe p q = true)) ∧
    ((DataCatalog_init data_sets layers dataset_patterns).sorted_dataset_patterns).Perm
      (dataset_patterns.map (fun p => p.1)) := by
  have h1 : (DataCatalog_init data_sets layers dataset_patterns).sorted_dataset_patterns
      = sortPatterns (dataset_patterns.map (fun p => p.1)) := rfl
  rw [h1]
  exact ⟨(sortPatterns_pairwise _).imp (fun h => (patternKeyLe_iff _ _).mp h),
    sortPatterns_perm _⟩

/-! ## C9 — purity of credential resolution -/

/-- `h2` extends `h`: the store only grew; every pre-existing object is
untouched. -/
def H9Ext (h h2 : H9) : Prop := ∃ t, h2.store = h.store ++ t

theorem h9Ext_refl (h : H9) : H9Ext h h := ⟨[], by simp⟩

theorem h9Ext_trans {a b c : H9} (h1 : H9Ext a b) (h2 : H9Ext b c) : H9Ext a c := by
  obtain ⟨t1, e1⟩ := h1
  obtain ⟨t2, e2⟩ := h2
  exact ⟨t1 ++ t2, by rw [e2, e1, List.append_assoc]⟩

theorem h9Ext_alloc (h : H9) (cell : Cell) : H9Ext h (h9Alloc h cell).1 :=
  ⟨[cell], rfl⟩

theorem h9Ext_read {h h2 : H9} (hext : H9Ext h h2) (a : Nat)
    (ha : a < h.store.length) : h9Read h2 a = h9Read h a := by
  obtain ⟨t, e⟩ := hext
  simp only [h9Read, e]
  exact List.getD_append h.store t [] a ha

theorem deepcopyCell_ext_of (fuel : Nat)
    (hpv : ∀ h v, H9Ext h (deepcopyPV fuel h v).1) :
    ∀ h es, H9Ext h (deepcopyCell fuel h es).1 := by
  intro h es
  induction es generalizing h with
  | nil =>
    simp only [deepcopyCell]
    exact h9Ext_refl h
  | cons p rest ih =>
    obtain ⟨k, v⟩ := p
    rcases he1 : deepcopyPV fuel h v with ⟨h1, v1⟩
    rcases he2 : deepcopyCell fuel h1 rest with ⟨h2, rest1⟩
    have heq : (deepcopyCell fuel h ((k, v) :: rest)).1 = h2 := by
      rw [deepcopyCell, he1]
      dsimp only
      rw [he2]
    rw [heq]
    have e1 : H9Ext h h1 := by
      have := hpv h v
      rw [he1] at this
      exact this
    have e2 : H9Ext h1 h2 := by
      have := ih h1
      rw [he2] at this
      exact this
    exact h9Ext_trans e1 e2

theorem deepcopy_ext (fuel : Nat) :
    (∀ h v, H9Ext h (deepcopyPV fuel h v).1) ∧
    (∀ h es, H9Ext h (deepcopyCell fuel h es).1) := by
  induction fuel with
  | zero =>
    have hpv : ∀ (h : H9) (v : PV), H9Ext h (deepcopyPV 0 h v).1 := by
      intro h v
      simp only [deepcopyPV]
      exact h9Ext_refl h
    exact ⟨hpv, deepcopyCell_ext_of 0 hpv⟩
  | succ fuel ihf =>
    have hpv : ∀ (h : H9) (v : PV), H9Ext h (deepcopyPV (fuel + 1) h v).1 := by
      intro h v
      cases v with
      | str s => simp only [deepcopyPV]; exact h9Ext_refl h
      | int n => simp only [deepcopyPV]; exact h9Ext_refl h
      | bool b => simp only [deepcopyPV]; exact h9Ext_refl h
      | null => simp only [deepcopyPV]; exact h9Ext_refl h
      | dictRef a =>
        rcases he1 : deepcopyCell fuel h (h9Read h a) with ⟨h1, es⟩
        have heq : (deepcopyPV (fuel + 1) h (.dictRef a)).1 = ⟨h1.store ++ [es]⟩ := by
          rw [deepcopyPV, he1]
          dsimp only [h9Alloc]
        rw [heq]
        have e1 : H9Ext h h1 := by
          have := ihf.2 h (h9Read h a)
          rw [he1] at this
          exact this
        exact h9Ext_trans e1 ⟨[es], rfl⟩
    exact ⟨hpv, deepcopyCell_ext_of (fuel + 1) hpv⟩

theorem h9Ext_length {a b : H9} (h : H9Ext a b) : a.store.length ≤ b.store.length := by
  obtain ⟨t, e⟩ := h
  rw [e]
  simp

theorem mapEntriesObj_ext_of (fuel credsAddr : Nat)
    (hpv : ∀ h k v, H9Ext h (mapValueObj fuel credsAddr h k v).1) :
    ∀ h es, H9Ext h (mapEntriesObj fuel credsAddr h es).1 := by
  intro h es
  induction es generalizing h with
  | nil =>
    simp only [mapEntriesObj]
    exact h9Ext_refl h
  | cons p rest ih =>
    obtain ⟨k, v⟩ := p
    rcases he1 : mapValueObj fuel credsAddr h k v with ⟨h1, r1⟩
    have e1 : H9Ext h h1 := by
      have := hpv h k v
      rw [he1] at this
      exact this
    cases r1 with
    | error e =>
      have heq : (mapEntriesObj fuel credsAddr h ((k, v) :: rest)).1 = h1 := by
        rw [mapEntriesObj, he1]
      rw [heq]
      exact e1
    | ok v1 =>
      rcases he2 : mapEntriesObj fuel credsAddr h1 rest with ⟨h2, r2⟩
      have e2 : H9Ext h1 h2 := by
        have := ih h1
        rw [he2] at this
        exact this
      have heq : (mapEntriesObj fuel credsAddr h ((k, v) :: rest)).1 = h2 := by
        rw [mapEntriesObj, he1]
        dsimp only
        rw [he2]
        cases r2 <;> rfl
      rw [heq]
      exact h9Ext_trans e1 e2

theorem mapObj_ext (fuel credsAddr : Nat) :
    (∀ h k v, H9Ext h (mapValueObj fuel credsAddr h k v).1) ∧
    (∀ h es, H9Ext h (mapEntriesObj fuel credsAddr h es).1) := by
  induction fuel with
  | zero =>
    have hpv : ∀ (h : H9) (k : String) (v : PV),
        H9Ext h (mapValueObj 0 credsAddr h k v).1 := by
      intro h k v
      simp only [mapValueObj]
      exact h9Ext_refl h
    exact ⟨hpv, mapEntriesObj_ext_of 0 credsAddr hpv⟩
  | succ fuel ihf =>
    have hpv : ∀ (h : H9) (k : String) (v : PV),
        H9Ext h (mapValueObj (fuel + 1) credsAddr h k v).1 := by
      intro h k v
      cases v with
      | str s =>
        simp only [mapValueObj]
        by_cases hk : k = CREDENTIALS_KEY
        · rw [if_pos hk]
          cases dictGet (h9Read h credsAddr) s <;> exact h9Ext_refl h
        · rw [if_neg hk]
          exact h9Ext_refl h
      | int n => simp only [mapValueObj]; exact h9Ext_refl h
      | bool b => simp only [mapValueObj]; exact h9Ext_refl h
      | null => simp only [mapValueObj]; exact h9Ext_refl h
      | dictRef a =>
        rcases he1 : mapEntriesObj fuel credsAddr h (h9Read h a) with ⟨h1, r1⟩
        have e1 : H9Ext h h1 := by
          have := ihf.2 h (h9Read h a)
          rw [he1] at this
          exact this
        cases r1 with
        | error e =>
          have heq : (mapValueObj (fuel + 1) credsAddr h k (.dictRef a)).1 = h1 := by
            rw [mapValueObj, he1]
          rw [heq]
          exact e1
        | ok es2 =>
          have heq : (mapValueObj (fuel + 1) credsAddr h k (.dictRef a)).1 =
              ⟨h1.store ++ [es2]⟩ := by
            rw [mapValueObj, he1]
            dsimp only [h9Alloc]
          rw [heq]
          exact h9Ext_trans e1 ⟨[es2], rfl⟩
    exact ⟨hpv, mapEntriesObj_ext_of (fuel + 1) credsAddr hpv⟩

/-- C9: Credential resolution is pure with respect to its inputs: for every
store, config object and credentials table object, running
`_resolve_credentials` only allocates — the store is extended, every
pre-existing object (in particular the whole input config tree and the
credentials table) reads back unchanged — and the returned config is a
freshly allocated object (its address is outside the input store). -/
theorem c9_resolve_credentials_pure (fuel : Nat) (h : H9) (configAddr credsAddr : Nat) :
    H9Ext h (resolveCredentialsObj fuel h configAddr credsAddr).1 ∧
    (∀ a, a < h.store.length →
      h9Read (resolveCredentialsObj fuel h configAddr credsAddr).1 a = h9Read h a) ∧
    (∀ ra, (resolveCredentialsObj fuel h configAddr credsAddr).2 = .ok ra →
      h.store.length ≤ ra) := by
  rcases he1 : deepcopyCell fuel h (h9Read h configAddr) with ⟨h1, es⟩
  have e1 : H9Ext h h1 := by
    have := (deepcopy_ext fuel).2 h (h9Read h configAddr)
    rw [he1] at this
    exact this
  rcases he2 : mapEntriesObj fuel credsAddr ⟨h1.store ++ [es]⟩
      (h9Read ⟨h1.store ++ [es]⟩ h1.store.length) with ⟨h3, r⟩
  have e2 : H9Ext (⟨h1.store ++ [es]⟩ : H9) h3 := by
    have := (mapObj_ext fuel credsAddr).2 ⟨h1.store ++ [es]⟩
      (h9Read ⟨h1.store ++ [es]⟩ h1.store.length)
    rw [he2] at this
    exact this
  have e12 : H9Ext h h3 :=
    h9Ext_trans e1 (h9Ext_trans ⟨[es], rfl⟩ e2)
  cases r with
  | ok res =>
    have heq : resolveCredentialsObj fuel h configAddr credsAddr =
        (⟨h3.store ++ [res]⟩, .ok h3.store.length) := by
      rw [resolveCredentialsObj, he1]
      dsimp only [h9Alloc]
      rw [he2]
    rw [heq]
    have hext : H9Ext h ⟨h3.store ++ [res]⟩ := h9Ext_trans e12 ⟨[res], rfl⟩
    refine ⟨hext, ?_, ?_⟩
    · intro a ha
      exact h9Ext_read hext a ha
    · intro ra hra
      have : ra = h3.store.length := by
        have h4 := hra
        simp at h4
        omega
      rw [this]
      exact h9Ext_length e12
  | error e =>
    have heq : resolveCredentialsObj fuel h configAddr credsAddr = (h3, .error e) := by
      rw [resolveCredentialsObj, he1]
      dsimp only [h9Alloc]
      rw [he2]
    rw [heq]
    refine ⟨e12, ?_, ?_⟩
    · intro a ha
      exact h9Ext_read e12 a ha
    · intro ra hra
      simp at hra

/-- Witness for C9 at a concrete input: a one-entry config referencing a
one-entry credentials table; afterwards both input objects read back
unchanged. -/
theorem c9_resolve_credentials_pure_witness :
    h9Read (resolveCredentialsObj 2
      ⟨[[("credentials", PV.str "secretA")], [("secretA", PV.int 1)]]⟩ 0 1).1 1 =
      h9Read ⟨[[("credentials", PV.str "secretA")], [("secretA", PV.int 1)]]⟩ 1 ∧
    h9Read (resolveCredentialsObj 2
      ⟨[[("credentials", PV.str "secretA")], [("secretA", PV.int 1)]]⟩ 0 1).1 0 =
      h9Read ⟨[[("credentials", PV.str "secretA")], [("secretA", PV.int 1)]]⟩ 0 := by
  have := c9_resolve_credentials_pure 2
    ⟨[[("credentials", PV.str "secretA")], [("secretA", PV.int 1)]]⟩ 0 1
  exact ⟨this.2.1 1 (by decide), this.2.1 0 (by decide)⟩

/-! ## C5 — placeholder substitution into matched templates -/

theorem resolveTemplateEntries_ok (pat : String) (named : List (String × String))
    (template : List (String × CVal)) :
    ∀ cfg, resolveTemplateEntries pat named template = .ok cfg →
    cfg.length = template.length ∧
    (∀ i (hi : i < template.length) (hi2 : i < cfg.length),
      (isIterableWithRBrace (template.get ⟨i, hi⟩).2 = false →
        cfg.get ⟨i, hi2⟩ = template.get ⟨i, hi⟩) ∧
      (isIterableWithRBrace (template.get ⟨i, hi⟩).2 = true →
        ∃ r, formatMap (pyStr (template.get ⟨i, hi⟩).2) named = .ok r ∧
          cfg.get ⟨i, hi2⟩ = ((template.get ⟨i, hi⟩).1, CVal.str r))) := by
  induction template with
  | nil =>
    intro cfg hok
    simp only [resolveTemplateEntries, Except.ok.injEq] at hok
    subst hok
    refine ⟨rfl, ?_⟩
    intro i hi
    exact absurd hi (by simp)
  | cons p rest ih =>
    obtain ⟨k, v⟩ := p
    intro cfg hok
    rw [resolveTemplateEntries] at hok
    by_cases hcond : isIterableWithRBrace v = true
    · rw [if_pos hcond] at hok
      cases hfm : formatMap (pyStr v) named with
      | ok s2 =>
        rw [hfm] at hok
        cases hrest : resolveTemplateEntries pat named rest with
        | ok r =>
          rw [hrest] at hok
          injection hok with hcfg
          subst hcfg
          obtain ⟨ihlen, ihpt⟩ := ih r hrest
          refine ⟨by simp [ihlen], ?_⟩
          intro i hi hi2
          cases i with
          | zero =>
            have hget : ((k, v) :: rest).get ⟨0, hi⟩ = (k, v) := rfl
            have hget2 : ((k, CVal.str s2) :: r).get ⟨0, hi2⟩ = (k, CVal.str s2) := rfl
            rw [hget, hget2]
            constructor
            · intro hfalse
              rw [hcond] at hfalse
              cases hfalse
            · intro _
              exact ⟨s2, hfm, rfl⟩
          | succ j =>
            have hj : j < rest.length := by
              simp at hi
              omega
            have hj2 : j < r.length := by
              rw [ihlen]
              exact hj
            have hget : ((k, v) :: rest).get ⟨j + 1, hi⟩ = rest.get ⟨j, hj⟩ := rfl
            have hget2 : ((k, CVal.str s2) :: r).get ⟨j + 1, hi2⟩ = r.get ⟨j, hj2⟩ := rfl
            rw [hget, hget2]
            exact ihpt j hj hj2
        | error e =>
          rw [hrest] at hok
          cases hok
      | error fe =>
        cases fe with
        | key ky =>
          rw [hfm] at hok
          cases hok
        | value =>
          rw [hfm] at hok
          cases hok
    · rw [if_neg hcond] at hok
      cases hrest : resolveTemplateEntries pat named rest with
      | ok r =>
        rw [hrest] at hok
        injection hok with hcfg
        subst hcfg
        obtain ⟨ihlen, ihpt⟩ := ih r hrest
        refine ⟨by simp [ihlen], ?_⟩
        intro i hi hi2
        cases i with
        | zero =>
          have hget : ((k, v) :: rest).get ⟨0, hi⟩ = (k, v) := rfl
          have hget2 : ((k, v) :: r).get ⟨0, hi2⟩ = (k, v) := rfl
          rw [hget, hget2]
          constructor
          · intro _
            rfl
          · intro htrue
            exact absurd htrue hcond
        | succ j =>
          have hj : j < rest.length := by
            simp at hi
            omega
          have hj2 : j < r.length := by
            rw [ihlen]
            exact hj
          have hget : ((k, v) :: rest).get ⟨j + 1, hi⟩ = rest.get ⟨j, hj⟩ := rfl
          have hget2 : ((k, v) :: r).get ⟨j + 1, hi2⟩ = r.get ⟨j, hj2⟩ := rfl
          rw [hget, hget2]
          exact ihpt j hj hj2
      | error e =>
        rw [hrest] at hok
        cases hok

theorem resolveTemplateEntries_fails (pat : String) (named : List (String × String))
    (template : List (String × CVal)) (k s : String)
    (hmem : (k, CVal.str s) ∈ template)
    (hbrace : s.toList.contains rbrace = true)
    (hkey : ∃ key, formatMap s named = .error (.key key))
    (hnoval : ∀ k2 v2, (k2, v2) ∈ template → isIterableWithRBrace v2 = true →
      formatMap (pyStr v2) named ≠ .error .value) :
    ∃ k2 v2 key2, (k2, v2) ∈ template ∧ isIterableWithRBrace v2 = true ∧
      formatMap (pyStr v2) named = .error (.key key2) ∧
      resolveTemplateEntries pat named template =
        .error (.datasetError (resolveErrMsg k2 pat)) := by
  induction template with
  | nil => cases hmem
  | cons p rest ih =>
    obtain ⟨k0, v0⟩ := p
    rw [resolveTemplateEntries]
    by_cases hcond : isIterableWithRBrace v0 = true
    · rw [if_pos hcond]
      cases hfm : formatMap (pyStr v0) named with
      | ok s2 =>
        have hmem2 : (k, CVal.str s) ∈ rest := by
          rcases List.mem_cons.mp hmem with heq | h2
          · exfalso
            obtain ⟨key, hk⟩ := hkey
            have hv0 : v0 = CVal.str s := (Prod.mk.injEq .. ▸ heq.symm).2
            rw [hv0] at hfm
            have : pyStr (CVal.str s) = s := rfl
            rw [this] at hfm
            rw [hfm] at hk
            cases hk
          · exact h2
        have hnoval2 : ∀ k2 v2, (k2, v2) ∈ rest → isIterableWithRBrace v2 = true →
            formatMap (pyStr v2) named ≠ .error .value := by
          intro k2 v2 hm hc
          exact hnoval k2 v2 (List.mem_cons_of_mem _ hm) hc
        obtain ⟨k2, v2, key2, hm2, hc2, hf2, hres2⟩ := ih hmem2 hnoval2
        refine ⟨k2, v2, key2, List.mem_cons_of_mem _ hm2, hc2, hf2, ?_⟩
        rw [hres2]
      | error fe =>
        cases fe with
        | key ky =>
          exact ⟨k0, v0, ky, List.mem_cons_self _ _, hcond, hfm, rfl⟩
        | value =>
          exact absurd hfm (hnoval k0 v0 (List.mem_cons_self _ _) hcond)
    · rw [if_neg hcond]
      have hmem2 : (k, CVal.str s) ∈ rest := by
        rcases List.mem_cons.mp hmem with heq | h2
        · exfalso
          have hv0 : v0 = CVal.str s := (Prod.mk.injEq .. ▸ heq.symm).2
          rw [hv0] at hcond
          exact hcond (by simpa [isIterableWithRBrace] using hbrace)
        · exact h2
      have hnoval2 : ∀ k2 v2, (k2, v2) ∈ rest → isIterableWithRBrace v2 = true →
          formatMap (pyStr v2) named ≠ .error .value := by
        intro k2 v2 hm hc
        exact hnoval k2 v2 (List.mem_cons_of_mem _ hm) hc
      obtain ⟨k2, v2, key2, hm2, hc2, hf2, hres2⟩ := ih hmem2 hnoval2
      refine ⟨k2, v2, key2, List.mem_cons_of_mem _ hm2, hc2, hf2, ?_⟩
      rw [hres2]

/-- C5: When building a dataset from a matched pattern, for every scalar
(string) field of the deep-copied template whose string form contains the
closing placeholder delimiter, the constructed capability's config holds,
at the same position, that field with each placeholder occurrence
substituted by `format_map` under the captures of matching the pattern
against the name (first conjunct); if a referenced capture key is absent
(and no field aborts earlier with a malformed-template `ValueError`), the
operation fails with a template-resolution `DatasetError` whose message
names the offending field and the pattern (second conjunct). -/
theorem c5_template_substitution (c : Catalog) (dataset_name matched_pattern : String)
    (named : List (String × String)) (template : List (String × CVal))
    (hp : parseMatch matched_pattern dataset_name = some named)
    (ht : dictGet c.dataset_patterns matched_pattern = some template) :
    (∀ ds, _resolve_dataset c dataset_name matched_pattern = .ok ds →
      ds.config.length = template.length ∧
      ∀ i (hi : i < template.length) (hi2 : i < ds.config.length) (k s : String),
        template.get ⟨i, hi⟩ = (k, CVal.str s) → s.toList.contains rbrace = true →
        ∃ r, formatMap s named = .ok r ∧ ds.config.get ⟨i, hi2⟩ = (k, CVal.str r)) ∧
    ((∃ k s, (k, CVal.str s) ∈ template ∧ s.toList.contains rbrace = true ∧
        ∃ key, formatMap s named = .error (.key key)) →
      (∀ k2 v2, (k2, v2) ∈ template → isIterableWithRBrace v2 = true →
        formatMap (pyStr v2) named ≠ .error .value) →
      ∃ k2 v2 key2, (k2, v2) ∈ template ∧ isIterableWithRBrace v2 = true ∧
        formatMap (pyStr v2) named = .error (.key key2) ∧
        _resolve_dataset c dataset_name matched_pattern =
          .error (.datasetError (resolveErrMsg k2 matched_pattern))) := by
  constructor
  · intro ds hds
    rw [_resolve_dataset, hp, ht] at hds
    dsimp only at hds
    cases hres : resolveTemplateEntries matched_pattern named template with
    | error e =>
      rw [hres] at hds
      cases hds
    | ok template2 =>
      rw [hres] at hds
      injection hds with hds2
      have hcfg : ds.config = template2 := by
        rw [← hds2]
        simp [AbstractDataSetFromConfig]
      obtain ⟨hlen, hpt⟩ := resolveTemplateEntries_ok matched_pattern named template
        template2 hres
      rw [hcfg]
      refine ⟨hlen, ?_⟩
      intro i hi hi2 k s hentry hbrace
      have hcondi : isIterableWithRBrace (template.get ⟨i, hi⟩).2 = true := by
        rw [hentry]
        simpa [isIterableWithRBrace] using hbrace
      obtain ⟨r, hfm, hget⟩ := (hpt i hi hi2).2 hcondi
      refine ⟨r, ?_, ?_⟩
      · have h1 : (template.get ⟨i, hi⟩).2 = CVal.str s := by
          rw [hentry]
        rw [h1] at hfm
        exact hfm
      · rw [hget, hentry]
  · intro hkeyex hnoval
    obtain ⟨k, s, hmem, hbrace, hkey⟩ := hkeyex
    obtain ⟨k2, v2, key2, hm2, hc2, hf2, hres2⟩ :=
      resolveTemplateEntries_fails matched_pattern named template k s hmem hbrace hkey hnoval
    refine ⟨k2, v2, key2, hm2, hc2, hf2, ?_⟩
    rw [_resolve_dataset, hp, ht]
    dsimp only
    rw [hres2]

/-- A concrete one-pattern catalog for the C5 witness. -/
def c5cat : Catalog :=
  DataCatalog_init [] none
    [("\x7bns\x7d", [("type", CVal.str "csv"), ("filepath", CVal.str "data/\x7bns\x7d.csv")])]

/-- The capability `_resolve_dataset` builds for name `"uk"` in `c5cat`. -/
def c5ds : DS :=
  AbstractDataSetFromConfig "uk"
    [("type", CVal.str "csv"), ("filepath", CVal.str "data/uk.csv")] none none

/-- Witness for C5 at a concrete input. -/
theorem c5_template_substitution_witness :
    ∃ r, formatMap "data/\x7bns\x7d.csv" [("ns", "uk")] = .ok r ∧
      c5ds.config.get ⟨1, by decide⟩ = ("filepath", CVal.str r) := by
  have happ := (c5_template_substitution c5cat "uk" "\x7bns\x7d" [("ns", "uk")]
    [("type", CVal.str "csv"), ("filepath", CVal.str "data/\x7bns\x7d.csv")]
    (by rfl) (by rfl)).1 c5ds (by rfl)
  obtain ⟨r, hr1, hr2⟩ := happ.2 1 (by decide) (by decide) "filepath"
    "data/\x7bns\x7d.csv" rfl (by decide)
  exact ⟨r, hr1, hr2⟩

/-! ## C2 — match once, register forever -/

theorem dictContains_of_get (m : List (String × α)) (k : String) (v : α)
    (h : dictGet m k = some v) : dictContains m k = true := by
  rw [dictContains_eq_isSome, h]
  rfl

/-- C2: For a name that is not an exact registration (and not yet cached)
but matches some factory pattern, a first successful resolution through
`load` materializes exactly one new exact registration under that name
(`data_sets` grows by exactly the one entry), caches the matched pattern,
and did consult the pattern matcher; afterwards the name is present in the
exact-name map, and a second resolution — through `load`, `save` or
`release` — performs no pattern matching (the matcher-ran flag is
`false`), leaves the registry unchanged, and yields the identical
capability instance. -/
theorem c2_match_once_register_forever (c : Catalog) (n p : String)
    (c2 : Catalog) (ran : Bool) (ds : DS)
    (h1 : dictContains c.data_sets n = false)
    (h2 : dictContains c.pattern_matches_cache n = false)
    (h3 : match_name_against_patterns c n = some p)
    (hload : load c n none = (c2, ran, .ok ds)) :
    dictGet c2.data_sets n = some ds ∧
    c2.data_sets = c.data_sets ++ [(n, ds)] ∧
    ran = true ∧
    dictGet c2.pattern_matches_cache n = some p ∧
    load c2 n none = (c2, false, .ok ds) ∧
    save c2 n = (c2, false, .ok ds) ∧
    release c2 n = (c2, false, .ok ds) := by
  have hload2 : _get_dataset c n none = (c2, ran, .ok ds) := hload
  have hex : exists_in_catalog_config c n =
      (true, { c with pattern_matches_cache := dictSet c.pattern_matches_cache n p },
       true) := by
    rw [exists_in_catalog_config, h1, h2, h3]
    rfl
  have hcache : dictGet (dictSet c.pattern_matches_cache n p) n = some p :=
    dictGet_set_self _ _ _
  rw [_get_dataset, h1] at hload2
  simp only [Bool.false_eq_true, if_false] at hload2
  rw [hex] at hload2
  dsimp only at hload2
  rw [if_pos rfl] at hload2
  rw [hcache] at hload2
  dsimp only at hload2
  cases hres : _resolve_dataset
      { c with pattern_matches_cache := dictSet c.pattern_matches_cache n p } n p with
  | error e =>
    rw [hres] at hload2
    simp at hload2
  | ok md =>
    rw [hres] at hload2
    dsimp only at hload2
    rw [add] at hload2
    dsimp only at hload2
    rw [h1] at hload2
    simp only [Bool.false_and, Bool.false_eq_true, if_false] at hload2
    rw [finishGet] at hload2
    dsimp only at hload2
    rw [dictGet_set_self] at hload2
    dsimp only at hload2
    obtain ⟨hc2, hran, hds⟩ : _ ∧ _ ∧ _ := by
      injection hload2 with e1 e2
      injection e2 with e2a e2b
      injection e2b with e3
      exact ⟨e1, e2a, e3⟩
    have hdseq : md = ds := hds
    subst hdseq
    subst hran
    have hc2ds : c2.data_sets = dictSet c.data_sets n md := by
      rw [← hc2]
    have hc2cache : c2.pattern_matches_cache = dictSet c.pattern_matches_cache n p := by
      rw [← hc2]
    have hgot : dictGet c2.data_sets n = some md := by
      rw [hc2ds]
      exact dictGet_set_self _ _ _
    have hcont2 : dictContains c2.data_sets n = true :=
      dictContains_of_get _ _ _ hgot
    have hfin2 : finishGet c2 n none = .ok md := by
      rw [finishGet, hgot]
      simp
    have hsecond : _get_dataset c2 n none = (c2, false, .ok md) := by
      rw [_get_dataset, hcont2]
      simp only [if_true]
      rw [hfin2]
    refine ⟨hgot, ?_, rfl, ?_, hsecond, hsecond, hsecond⟩
    · rw [hc2ds]
      exact dictSet_of_not_contains _ _ _ h1
    · rw [hc2cache]
      exact hcache

/-! ## C10 — `exists` is not read-only -/

/-- The substitution loop never fails with a not-found error (its failures
are `DatasetError` and `ValueError`). -/
theorem resolveTemplateEntries_no_notFound (pat : String) (named : List (String × String)) :
    ∀ (template : List (String × CVal)) msg,
    resolveTemplateEntries pat named template ≠ .error (.notFound msg) := by
  intro template
  induction template with
  | nil =>
    intro msg h
    simp [resolveTemplateEntries] at h
  | cons p rest ih =>
    obtain ⟨k, v⟩ := p
    intro msg h
    rw [resolveTemplateEntries] at h
    by_cases hcond : isIterableWithRBrace v = true
    · rw [if_pos hcond] at h
      cases hfm : formatMap (pyStr v) named with
      | ok s2 =>
        rw [hfm] at h
        cases hrest : resolveTemplateEntries pat named rest with
        | ok r =>
          rw [hrest] at h
          cases h
        | error e =>
          rw [hrest] at h
          injection h with he
          exact ih msg (by rw [hrest, he])
      | error fe =>
        cases fe with
        | key ky =>
          rw [hfm] at h
          cases h
        | value =>
          rw [hfm] at h
          cases h
    · rw [if_neg hcond] at h
      cases hrest : resolveTemplateEntries pat named rest with
      | ok r =>
        rw [hrest] at h
        cases h
      | error e =>
        rw [hrest] at h
        injection h with he
        exact ih msg (by rw [hrest, he])

/-- `_resolve_dataset` never fails with a not-found error. -/
theorem resolve_dataset_no_notFound (c : Catalog) (n p msg : String) :
    _resolve_dataset c n p ≠ .error (.notFound msg) := by
  intro h
  rw [_resolve_dataset] at h
  cases hp : parseMatch p n with
  | none =>
    rw [hp] at h
    cases h
  | some named =>
    rw [hp] at h
    dsimp only at h
    cases ht : dictGet c.dataset_patterns p with
    | none =>
      rw [ht] at h
      cases h
    | some template =>
      rw [ht] at h
      dsimp only at h
      cases hres : resolveTemplateEntries p named template with
      | ok t2 =>
        rw [hres] at h
        cases h
      | error e =>
        rw [hres] at h
        injection h with he
        exact resolveTemplateEntries_no_notFound p named template msg (by rw [hres, he])

/-- Forward computation of `_get_dataset` on a fresh pattern-matching name
whose resolution succeeds. -/
theorem getDataset_materializes (c : Catalog) (n p : String) (md : DS)
    (h1 : dictContains c.data_sets n = false)
    (h2 : dictContains c.pattern_matches_cache n = false)
    (h3 : match_name_against_patterns c n = some p)
    (hres : _resolve_dataset
      { c with pattern_matches_cache := dictSet c.pattern_matches_cache n p } n p =
        .ok md) :
    _get_dataset c n none =
      ({ c with data_sets := dictSet c.data_sets n md,
                datasets := dictSet c.datasets (_sub_nonword_chars n) md,
                pattern_matches_cache := dictSet c.pattern_matches_cache n p },
       true, .ok md) := by
  have hex : exists_in_catalog_config c n =
      (true, { c with pattern_matches_cache := dictSet c.pattern_matches_cache n p },
       true) := by
    rw [exists_in_catalog_config, h1, h2, h3]
    rfl
  rw [_get_dataset, h1]
  simp only [Bool.false_eq_true, if_false]
  rw [hex]
  dsimp only
  rw [if_pos rfl, dictGet_set_self]
  dsimp only
  rw [hres]
  dsimp only
  rw [add]
  dsimp only
  rw [h1]
  simp only [Bool.false_and, Bool.false_eq_true, if_false]
  rw [finishGet]
  dsimp only
  rw [dictGet_set_self]
  simp

/-- Forward computation of `_get_dataset` on a fresh pattern-matching name
whose resolution fails. -/
theorem getDataset_resolve_error (c : Catalog) (n p : String) (e : Err)
    (h1 : dictContains c.data_sets n = false)
    (h2 : dictContains c.pattern_matches_cache n = false)
    (h3 : match_name_against_patterns c n = some p)
    (hres : _resolve_dataset
      { c with pattern_matches_cache := dictSet c.pattern_matches_cache n p } n p =
        .error e) :
    _get_dataset c n none =
      ({ c with pattern_matches_cache := dictSet c.pattern_matches_cache n p },
       true, .error e) := by
  have hex : exists_in_catalog_config c n =
      (true, { c with pattern_matches_cache := dictSet c.pattern_matches_cache n p },
       true) := by
    rw [exists_in_catalog_config, h1, h2, h3]
    rfl
  rw [_get_dataset, h1]
  simp only [Bool.false_eq_true, if_false]
  rw [hex]
  dsimp only
  rw [if_pos rfl, dictGet_set_self]
  dsimp only
  rw [hres]

/-- Forward computation of `_get_dataset` on a wholly unresolvable name. -/
theorem getDataset_unresolvable (c : Catalog) (n : String)
    (h1 : dictContains c.data_sets n = false)
    (h2 : dictContains c.pattern_matches_cache n = false)
    (h3 : match_name_against_patterns c n = none) :
    _get_dataset c n none =
      (c, true,
       .error (.notFound ("DataSet \x27" ++ n ++ "\x27 not found in the catalog"))) := by
  have hex : exists_in_catalog_config c n = (false, c, true) := by
    rw [exists_in_catalog_config, h1, h2, h3]
    rfl
  rw [_get_dataset, h1]
  simp only [Bool.false_eq_true, if_false]
  rw [hex]
  rfl

/-- C10: `exists(name)` is not read-only.  For a name that is not an exact
registration but matches a factory pattern, a successful `exists` call has
already materialized the capability from the matched pattern, registered
it as exactly one new entry in the exact-name map, updated the frozen
view, and cached the match — and its boolean result is the capability's
own `exists()` on that freshly registered instance (first conjunct).  Only
a wholly unresolvable name leaves the registry entirely unchanged and
returns `false` (second conjunct). -/
theorem c10_exists_not_read_only (dsE : DS → Bool) (c : Catalog) (n : String)
    (h1 : dictContains c.data_sets n = false)
    (h2 : dictContains c.pattern_matches_cache n = false) :
    (∀ p c2 r, match_name_against_patterns c n = some p →
      dcExists dsE c n = (c2, .ok r) →
      ∃ ds, r = dsE ds ∧
        dictGet c2.data_sets n = some ds ∧
        c2.data_sets = c.data_sets ++ [(n, ds)] ∧
        c2.datasets = dictSet c.datasets (_sub_nonword_chars n) ds ∧
        dictGet c2.pattern_matches_cache n = some p) ∧
    (match_name_against_patterns c n = none →
      dcExists dsE c n = (c, .ok false)) := by
  constructor
  · intro p c2 r hp hexists
    cases hres : _resolve_dataset
        { c with pattern_matches_cache := dictSet c.pattern_matches_cache n p } n p with
    | ok md =>
      have hstep := getDataset_materializes c n p md h1 h2 hp hres
      rw [dcExists, hstep] at hexists
      dsimp only at hexists
      obtain ⟨hc2, hr⟩ : _ ∧ _ := by
        injection hexists with e1 e2
        injection e2 with e2a
        exact ⟨e1, e2a⟩
      refine ⟨md, hr.symm, ?_, ?_, ?_, ?_⟩
      · rw [← hc2]
        exact dictGet_set_self _ _ _
      · rw [← hc2]
        exact dictSet_of_not_contains _ _ _ h1
      · rw [← hc2]
      · rw [← hc2]
        exact dictGet_set_self _ _ _
    | error e =>
      have hstep := getDataset_resolve_error c n p e h1 h2 hp hres
      rw [dcExists, hstep] at hexists
      cases e with
      | notFound msg => exact absurd hres (resolve_dataset_no_notFound _ _ _ _)
      | alreadyExists msg => cases hexists
      | datasetError msg => cases hexists
      | keyError msg => cases hexists
      | valueError => cases hexists
      | attrError => cases hexists
  · intro h3
    have hstep := getDataset_unresolvable c n h1 h2 h3
    rw [dcExists, hstep]

/-- A concrete one-pattern catalog for the C2 witness. -/
def c2cat : Catalog :=
  DataCatalog_init [] none [("\x7bns\x7d.companies", [("type", CVal.str "csv")])]

/-- The capability materialized for `"uk.companies"` in `c2cat`. -/
def c2ds0 : DS :=
  AbstractDataSetFromConfig "uk.companies" [("type", CVal.str "csv")] none none

/-- Witness for C2 at a concrete input. -/
theorem c2_match_once_register_forever_witness :
    dictGet (load c2cat "uk.companies" none).1.data_sets "uk.companies" = some c2ds0 ∧
    load (load c2cat "uk.companies" none).1 "uk.companies" none =
      ((load c2cat "uk.companies" none).1, false, .ok c2ds0) := by
  have h := c2_match_once_register_forever c2cat "uk.companies" "\x7bns\x7d.companies"
    (load c2cat "uk.companies" none).1 true c2ds0 (by rfl) (by rfl) (by rfl) (by rfl)
  exact ⟨h.1, h.2.2.2.2.1⟩

/-- A concrete one-pattern catalog for the C10 witness. -/
def c10cat : Catalog :=
  DataCatalog_init [] none [("\x7bns\x7d.boats", [("type", CVal.str "csv")])]

/-- Witness for C10 at concrete inputs (a pattern-matching name and an
unresolvable one). -/
theorem c10_exists_not_read_only_witness :
    (∃ ds, true = (fun (_ : DS) => true) ds ∧
      dictGet (dcExists (fun _ => true) c10cat "uk.boats").1.data_sets "uk.boats" =
        some ds ∧
      (dcExists (fun _ => true) c10cat "uk.boats").1.data_sets =
        c10cat.data_sets ++ [("uk.boats", ds)] ∧
      (dcExists (fun _ => true) c10cat "uk.boats").1.datasets =
        dictSet c10cat.datasets (_sub_nonword_chars "uk.boats") ds ∧
      dictGet (dcExists (fun _ => true) c10cat "uk.boats").1.pattern_matches_cache
        "uk.boats" = some "\x7bns\x7d.boats") ∧
    dcExists (fun _ => true) c10cat "nope" = (c10cat, .ok false) := by
  have h := c10_exists_not_read_only (fun _ => true) c10cat "uk.boats" (by rfl) (by rfl)
  have h2 := c10_exists_not_read_only (fun _ => true) c10cat "nope" (by rfl) (by rfl)
  exact ⟨h.1 "\x7bns\x7d.boats" (dcExists (fun _ => true) c10cat "uk.boats").1 true
    (by rfl) (by rfl), h2.2 (by rfl)⟩

/-! ## C4 — pattern entries versus eager construction in `from_config` -/

theorem dictGet_map_set_ne (m : List (String × α)) (k k2 : String) (v : α)
    (h : ¬ k = k2) :
    dictGet (m.map (fun p => if p.1 = k then (k, v) else p)) k2 = dictGet m k2 := by
  induction m with
  | nil => rfl
  | cons p rest ih =>
    by_cases hp : p.1 = k
    · rw [List.map_cons, if_pos hp, dictGet_cons, dictGet_cons]
      have hp2 : ¬ p.1 = k2 := by
        rw [hp]
        exact h
      rw [if_neg h, if_neg hp2]
      exact ih
    · rw [List.map_cons, if_neg hp, dictGet_cons, dictGet_cons]
      by_cases hp2 : p.1 = k2
      · rw [if_pos hp2, if_pos hp2]
      · rw [if_neg hp2, if_neg hp2]
        exact ih

theorem dictGet_append_single_ne (m : List (String × α)) (k k2 : String) (v : α)
    (h : ¬ k = k2) : dictGet (m ++ [(k, v)]) k2 = dictGet m k2 := by
  induction m with
  | nil =>
    rw [List.nil_append, dictGet_cons, if_neg h]
  | cons p rest ih =>
    rw [List.cons_append, dictGet_cons, dictGet_cons]
    by_cases hp : p.1 = k2
    · rw [if_pos hp, if_pos hp]
    · rw [if_neg hp, if_neg hp]
      exact ih

theorem dictGet_set_ne (m : List (String × α)) (k k2 : String) (v : α)
    (h : ¬ k = k2) : dictGet (dictSet m k v) k2 = dictGet m k2 := by
  rw [dictSet]
  by_cases hc : m.any (fun p => p.1 = k)
  · rw [if_pos hc]
    exact dictGet_map_set_ne m k k2 v h
  · rw [if_neg hc]
    exact dictGet_append_single_ne m k k2 v h

theorem fromConfigLoop_trace_mono (credentials : List (String × CVal))
    (load_versions : List (String × String)) (sv : String) :
    ∀ (entries : List (String × List (String × CVal))) (acc acc2 : FCAcc),
    fromConfigLoop credentials load_versions sv entries acc = (acc2, none) →
    ∃ t, acc2.trace = acc.trace ++ t := by
  intro entries
  induction entries with
  | nil =>
    intro acc acc2 hloop
    rw [fromConfigLoop] at hloop
    have e1 : acc = acc2 := congrArg Prod.fst hloop
    subst e1
    exact ⟨[], by simp⟩
  | cons p rest ih =>
    obtain ⟨m, mcfg⟩ := p
    intro acc acc2 hloop
    rw [fromConfigLoop] at hloop
    by_cases hcm : strContainsChar m rbrace = true
    · rw [if_pos hcm] at hloop
      obtain ⟨t, ht⟩ := ih _ _ hloop
      exact ⟨t, ht⟩
    · rw [if_neg hcm] at hloop
      dsimp only at hloop
      cases hcred : _resolve_credentials (removeKey mcfg "layer") credentials with
      | error e =>
        rw [hcred] at hloop
        dsimp only at hloop
        injection hloop with _ e2
        cases e2
      | ok rcfg =>
        rw [hcred] at hloop
        dsimp only at hloop
        obtain ⟨t, ht⟩ := ih _ _ hloop
        refine ⟨[AbstractDataSetFromConfig m rcfg (dictGet load_versions m) (some sv)] ++ t, ?_⟩
        rw [ht]
        simp

theorem fromConfigLoop_preserves (credentials : List (String × CVal))
    (load_versions : List (String × String)) (sv : String) :
    ∀ (entries : List (String × List (String × CVal))) (acc acc2 : FCAcc),
    fromConfigLoop credentials load_versions sv entries acc = (acc2, none) →
    ∀ n, ¬ n ∈ entries.map (fun p => p.1) →
      dictGet acc2.data_sets n = dictGet acc.data_sets n ∧
      dictGet acc2.dataset_patterns n = dictGet acc.dataset_patterns n := by
  intro entries
  induction entries with
  | nil =>
    intro acc acc2 hloop n _
    rw [fromConfigLoop] at hloop
    have e1 : acc = acc2 := congrArg Prod.fst hloop
    subst e1
    exact ⟨rfl, rfl⟩
  | cons p rest ih =>
    obtain ⟨m, mcfg⟩ := p
    intro acc acc2 hloop n hn
    have hnm : ¬ m = n := by
      intro he
      exact hn (by simp [he])
    have hnrest : ¬ n ∈ rest.map (fun p => p.1) := by
      intro he
      exact hn (by simp [he])
    rw [fromConfigLoop] at hloop
    by_cases hcm : strContainsChar m rbrace = true
    · rw [if_pos hcm] at hloop
      obtain ⟨e1, e2⟩ := ih _ _ hloop n hnrest
      refine ⟨e1, ?_⟩
      rw [e2]
      exact dictGet_set_ne _ _ _ _ hnm
    · rw [if_neg hcm] at hloop
      dsimp only at hloop
      cases hcred : _resolve_credentials (removeKey mcfg "layer") credentials with
      | error e =>
        rw [hcred] at hloop
        dsimp only at hloop
        injection hloop with _ e2
        cases e2
      | ok rcfg =>
        rw [hcred] at hloop
        dsimp only at hloop
        obtain ⟨e1, e2⟩ := ih _ _ hloop n hnrest
        refine ⟨?_, e2⟩
        rw [e1]
        exact dictGet_set_ne _ _ _ _ hnm

theorem fromConfigLoop_spec (credentials : List (String × CVal))
    (load_versions : List (String × String)) (sv : String) :
    ∀ (entries : List (String × List (String × CVal))) (acc acc2 : FCAcc),
    fromConfigLoop credentials load_versions sv entries acc = (acc2, none) →
    (entries.map (fun p => p.1)).Nodup →
    ∀ n cfg, (n, cfg) ∈ entries →
      (strContainsChar n rbrace = true →
        dictGet acc2.dataset_patterns n = some cfg ∧
        dictGet acc2.data_sets n = dictGet acc.data_sets n) ∧
      (strContainsChar n rbrace = false →
        ∃ rcfg, _resolve_credentials (removeKey cfg "layer") credentials = .ok rcfg ∧
          dictGet acc2.data_sets n =
            some (AbstractDataSetFromConfig n rcfg (dictGet load_versions n) (some sv)) ∧
          AbstractDataSetFromConfig n rcfg (dictGet load_versions n) (some sv) ∈
            acc2.trace ∧
          dictGet acc2.dataset_patterns n = dictGet acc.dataset_patterns n) := by
  intro entries
  induction entries with
  | nil =>
    intro acc acc2 _ _ n cfg hmem
    cases hmem
  | cons p rest ih =>
    obtain ⟨m, mcfg⟩ := p
    intro acc acc2 hloop hnd n cfg hmem
    have hnd2 : (m :: rest.map (fun p => p.1)).Nodup := by
      simpa using hnd
    have hndrest : (rest.map (fun p => p.1)).Nodup := (List.nodup_cons.mp hnd2).2
    have hmrest : ¬ m ∈ rest.map (fun p => p.1) := (List.nodup_cons.mp hnd2).1
    rw [fromConfigLoop] at hloop
    rcases List.mem_cons.mp hmem with heq | hmem2
    · have hn : n = m := (Prod.mk.injEq .. ▸ heq).1
      have hcfg : cfg = mcfg := (Prod.mk.injEq .. ▸ heq).2
      subst hn
      subst hcfg
      by_cases hcm : strContainsChar n rbrace = true
      · rw [if_pos hcm] at hloop
        obtain ⟨e1, e2⟩ := fromConfigLoop_preserves credentials load_versions sv
          rest _ _ hloop n hmrest
        constructor
        · intro _
          refine ⟨?_, ?_⟩
          · rw [e2]
            exact dictGet_set_self _ _ _
          · exact e1
        · intro hfalse
          rw [hcm] at hfalse
          cases hfalse
      · rw [if_neg hcm] at hloop
        dsimp only at hloop
        cases hcred : _resolve_credentials (removeKey cfg "layer") credentials with
        | error e =>
          rw [hcred] at hloop
          dsimp only at hloop
          injection hloop with _ e2
          cases e2
        | ok rcfg =>
          rw [hcred] at hloop
          dsimp only at hloop
          obtain ⟨e1, e2⟩ := fromConfigLoop_preserves credentials load_versions sv
            rest _ _ hloop n hmrest
          obtain ⟨t, ht⟩ := fromConfigLoop_trace_mono credentials load_versions sv
            rest _ _ hloop
          constructor
          · intro htrue
            exact absurd htrue hcm
          · intro _
            refine ⟨rcfg, rfl, ?_, ?_, e2⟩
            · rw [e1]
              exact dictGet_set_self _ _ _
            · rw [ht]
              dsimp only
              exact List.mem_append_left _ (List.mem_append_right _ (by simp))
    · have hnm : ¬ m = n := by
        intro he
        apply hmrest
        rw [he]
        exact List.mem_map.mpr ⟨(n, cfg), hmem2, rfl⟩
      by_cases hcm : strContainsChar m rbrace = true
      · rw [if_pos hcm] at hloop
        have hspec := ih _ _ hloop hndrest n cfg hmem2
        constructor
        · intro htrue
          obtain ⟨e1, e2⟩ := hspec.1 htrue
          exact ⟨e1, e2⟩
        · intro hfalse
          obtain ⟨rcfg, hc, e1, e2, e3⟩ := hspec.2 hfalse
          refine ⟨rcfg, hc, e1, e2, ?_⟩
          rw [e3]
          exact dictGet_set_ne _ _ _ _ hnm
      · rw [if_neg hcm] at hloop
        dsimp only at hloop
        cases hcred : _resolve_credentials (removeKey mcfg "layer") credentials with
        | error e =>
          rw [hcred] at hloop
          dsimp only at hloop
          injection hloop with _ e2
          cases e2
        | ok rcfg0 =>
          rw [hcred] at hloop
          dsimp only at hloop
          have hspec := ih _ _ hloop hndrest n cfg hmem2
          constructor
          · intro htrue
            obtain ⟨e1, e2⟩ := hspec.1 htrue
            refine ⟨e1, ?_⟩
            rw [e2]
            exact dictGet_set_ne _ _ _ _ hnm
          · intro hfalse
            obtain ⟨rcfg, hc, e1, e2, e3⟩ := hspec.2 hfalse
            exact ⟨rcfg, hc, e1, e2, e3⟩

/-- C4 counterexample: the claim's discriminator is "contains a placeholder
delimiter *pair*".  The code tests only for the closing delimiter, so the
name `"a\x7db"` — which contains no pair — is nevertheless stored as a
factory pattern: nothing is constructed (empty trace), no exact name is
registered, and the entry sits in the pattern table; the claim's "every
other entry has ... a capability constructed eagerly" fails on it. -/
theorem c4_counterexample :
    hasDelimiterPair "a\x7db" = false ∧
    from_config [("a\x7db", [("type", CVal.str "csv")])] [] [] none "ts" =
      ([], .ok (DataCatalog_init [] none [("a\x7db", [("type", CVal.str "csv")])])) ∧
    (DataCatalog_init [] none [("a\x7db", [("type", CVal.str "csv")])]).data_sets = [] ∧
    dictGet (DataCatalog_init [] none
      [("a\x7db", [("type", CVal.str "csv")])]).dataset_patterns "a\x7db" =
      some [("type", CVal.str "csv")] :=
  ⟨by decide, by rfl, by rfl, by rfl⟩

/-- C4 (amended): for every entry of the construction config tree (with
distinct names): a name containing the *closing* placeholder delimiter is
never registered as an exact name — it is stored as a factory pattern with
its config kept verbatim as the template (no credential resolution
applied); every entry *not* containing the closing delimiter has its
`layer` key popped and its credentials resolved immediately, and a
capability is constructed eagerly (it appears in the construction trace)
with the per-name load version from `load_versions` if present and the
shared save version. -/
theorem c4_amended_from_config (catalog : List (String × List (String × CVal)))
    (credentials : List (String × CVal)) (load_versions : List (String × String))
    (save_version : Option String) (generated : String)
    (trace : List DS) (c : Catalog)
    (hnd : (catalog.map (fun p => p.1)).Nodup)
    (hok : from_config catalog credentials load_versions save_version generated =
      (trace, .ok c)) :
    ∀ n cfg, (n, cfg) ∈ catalog →
      (strContainsChar n rbrace = true →
        dictGet c.dataset_patterns n = some cfg ∧ dictGet c.data_sets n = none) ∧
      (strContainsChar n rbrace = false →
        ∃ rcfg, _resolve_credentials (removeKey cfg "layer") credentials = .ok rcfg ∧
          dictGet c.data_sets n =
            some (AbstractDataSetFromConfig n rcfg (dictGet load_versions n)
              (some (effectiveSaveVersion save_version generated))) ∧
          AbstractDataSetFromConfig n rcfg (dictGet load_versions n)
            (some (effectiveSaveVersion save_version generated)) ∈ trace ∧
          dictGet c.dataset_patterns n = none) := by
  intro n cfg hmem
  rw [from_config] at hok
  split at hok
  · rcases hloop : fromConfigLoop credentials load_versions
        (effectiveSaveVersion save_version generated) catalog ⟨[], [], [], []⟩ with ⟨acc, err⟩
    rw [hloop] at hok
    cases err with
    | some e =>
      dsimp only at hok
      injection hok with _ e2
      cases e2
    | none =>
      dsimp only at hok
      obtain ⟨etr, ec⟩ : _ ∧ _ := by
        injection hok with e1 e2
        injection e2 with e2a
        exact ⟨e1, e2a⟩
      have hds : c.data_sets = acc.data_sets := by
        rw [← ec]
        rfl
      have hpats : c.dataset_patterns = acc.dataset_patterns := by
        rw [← ec]
        rfl
      have hspec := fromConfigLoop_spec credentials load_versions
        (effectiveSaveVersion save_version generated) catalog ⟨[], [], [], []⟩ acc
        hloop hnd n cfg hmem
      constructor
      · intro htrue
        obtain ⟨e1, e2⟩ := hspec.1 htrue
        refine ⟨?_, ?_⟩
        · rw [hpats]
          exact e1
        · rw [hds, e2]
          rfl
      · intro hfalse
        obtain ⟨rcfg, hc, e1, e2, e3⟩ := hspec.2 hfalse
        refine ⟨rcfg, hc, ?_, ?_, ?_⟩
        · rw [hds]
          exact e1
        · rw [← etr]
          exact e2
        · rw [hpats, e3]
          rfl
  · injection hok with _ e2
    cases e2

/-- The concrete config tree for the C4 witness. -/
def c4cat : List (String × List (String × CVal)) :=
  [("cars", [("type", CVal.str "csv"), ("layer", CVal.str "raw")]),
   ("\x7bp\x7d", [("type", CVal.str "parquet")])]

/-- The catalog built from `c4cat`. -/
def c4c : Catalog :=
  match (from_config c4cat [] [("cars", "v1")] (some "sv1") "g").2 with
  | .ok c => c
  | .error _ => DataCatalog_init [] none []

/-- Witness for C4 (amended) at a concrete input. -/
theorem c4_amended_from_config_witness :
    ∃ rcfg, _resolve_credentials
        (removeKey [("type", CVal.str "csv"), ("layer", CVal.str "raw")] "layer") [] =
        .ok rcfg ∧
      dictGet c4c.data_sets "cars" =
        some (AbstractDataSetFromConfig "cars" rcfg (dictGet [("cars", "v1")] "cars")
          (some (effectiveSaveVersion (some "sv1") "g"))) ∧
      dictGet c4c.dataset_patterns "cars" = none := by
  have h := c4_amended_from_config c4cat [] [("cars", "v1")] (some "sv1") "g"
    (from_config c4cat [] [("cars", "v1")] (some "sv1") "g").1 c4c
    (by decide) (by rfl) "cars" [("type", CVal.str "csv"), ("layer", CVal.str "raw")]
    (List.mem_cons_self _ _)
  obtain ⟨rcfg, h1, h2, _, h4⟩ := h.2 (by rfl)
  exact ⟨rcfg, h1, h2, h4⟩

end KedroCatalog
